import Mathlib

/-!
# Deterministic Ranking & Allocation Engine — verification

A shallow embedding, over `ℚ`, of the scoring, ranking, allocation and
swing-setup code of the `ark_list_web_service` repository:

* `rank.py` — `_to_float`, `TickerSnapshot.atr_pct`, `factor_scores`,
  `build_swing_setup`, the ranking sort of `rank_tickers`;
* `service/classes/scoring.py` — `_safe_num`, `compute_upside`,
  `parse_earnings_growth`, `compute_confluence`, `score_ticker`, `allocate`;
* `service/classes/recommender.py` — `score_and_allocate`;
* `utils/ai_helper.py` — the scoring and allocation core of
  `deterministic_portfolio_rank` (`_to_pct`, `_earn_points`, `_score`, the
  score-30 gate, and the rounding allocator with residual redistribution).

Modelling conventions:
* Python floats are modelled as rationals (`ℚ`); the NaN / ±Infinity
  behaviour of the two numeric-coercion helpers is modelled separately with
  an explicit `PyFloat` type.
* A numeric field read from a dict is `Option ℚ` (`none` = key missing or
  value `None`).  Python truthiness on numbers (`x or y` falls through for
  both `None` and `0.0`) is modelled by `pyOr` / `pyOrD`.
* Python's stable `sort`/`sorted` is modelled by `List.mergeSort`, which is
  a stable merge sort.
* `int(x)` truncation is `pyTrunc`; float `round(x)` (banker's rounding,
  half to even) is `rne`; `round(x, 2)` is `round2`.
-/

/-! ## Numeric coercion at ingestion (`rank._to_float`, `scoring._safe_num`)

`float(val)` on an arbitrary Python value either raises (`PyVal.nonNumeric`)
or yields a float, which is finite, NaN, or ±Infinity. -/

inductive PyFloat : Type
  | fin (q : ℚ)
  | nan
  | inf
  | neginf
deriving DecidableEq, Repr

def PyFloat.isFinite : PyFloat → Bool
  | .fin _ => true
  | _ => false

inductive PyVal : Type
  | float (f : PyFloat)
  | nonNumeric
deriving DecidableEq, Repr

/-- `rank._to_float`: `float(val)` guarded by `math.isfinite`; any failure or
non-finite result becomes `None`. -/
def to_float : PyVal → Option ℚ
  | .float (.fin q) => some q
  | .float _ => none
  | .nonNumeric => none

/-- `scoring._safe_num`: `float(val)` guarded only by the NaN self-equality
check `n == n`; note ±Infinity passes the check (`inf == inf` is true). -/
def safe_num : PyVal → Option PyFloat
  | .float .nan => none
  | .float f => some f
  | .nonNumeric => none

/-! ## Scheme A: `rank.py` snapshots and factor scores -/

structure TickerSnapshot where
  symbol : String := ""
  close : Option ℚ := none
  volume : Option ℚ := none
  sma20 : Option ℚ := none
  sma50 : Option ℚ := none
  sma200 : Option ℚ := none
  rsi14 : Option ℚ := none
  macd : Option ℚ := none
  macd_hist : Option ℚ := none
  atr14 : Option ℚ := none
  volume_trend : Option ℚ := none
  upside_pct : Option ℚ := none
deriving DecidableEq, Repr

/-- `TickerSnapshot.atr_pct` property: `(atr14 / close) * 100`, undefined when
either input is missing. -/
def TickerSnapshot.atr_pct (s : TickerSnapshot) : Option ℚ :=
  match s.close, s.atr14 with
  | some c, some a => some (a / c * 100)
  | _, _ => none

/-- `close > (x or -math.inf)`: Python truthiness, so a present value `0.0`
also falls back to `-inf` and the comparison is vacuously true. -/
def gtOrNegInf (c : ℚ) (o : Option ℚ) : Bool :=
  match o with
  | some v => if v = 0 then true else decide (v < c)
  | none => true

structure FactorScores where
  momentum : ℚ
  rsi : ℚ
  macd : ℚ
  volume : ℚ
  volatility : ℚ
  upside : ℚ
deriving DecidableEq, Repr

/-- `rank.factor_scores`: factor-level scores with neutral defaults for
missing data. -/
def factor_scores (s : TickerSnapshot) : FactorScores :=
  let momentum : ℚ :=
    match s.close, s.sma200 with
    | some c, some m200 =>
      let above_200 := decide (m200 < c)
      let above_50 := gtOrNegInf c s.sma50
      let above_20 := gtOrNegInf c s.sma20
      if above_20 && above_50 && above_200 then 1
      else if above_50 && above_200 then 0.7
      else if above_200 then 0.4
      else 0
    | _, _ => 0.5
  let rsi_score : ℚ :=
    match s.rsi14 with
    | some r =>
      if 55 ≤ r ∧ r < 70 then 1
      else if (50 ≤ r ∧ r < 55) ∨ (70 ≤ r ∧ r < 75) then 0.7
      else if (40 ≤ r ∧ r < 50) ∨ (75 ≤ r ∧ r ≤ 80) then 0.5
      else 0
    | none => 0.5
  let macd_score : ℚ :=
    match s.macd, s.macd_hist with
    | none, none => 0.5
    | m, h =>
      if 0 < m.getD 0 ∧ 0 < h.getD 0 then 1
      else if 0 < m.getD 0 ∨ 0 < h.getD 0 then 0.5
      else 0
  let vol_trend : ℚ := s.volume_trend.getD 0.8
  let volume_score : ℚ := if 1 < vol_trend then 1 else if 0.8 < vol_trend then 0.5 else 0
  let vol_control : ℚ :=
    match s.atr_pct with
    | some ap => if ap < 1.5 then 1 else if ap < 3 then 0.5 else 0
    | none => 0.5
  let upside_score : ℚ :=
    match s.upside_pct with
    | some u =>
      if 20 < u then 1.3
      else if 12 < u then 1.1
      else if 7 < u then 0.9
      else if 3 < u then 0.7
      else if 0 < u then 0.5
      else 0
    | none => 0.5
  { momentum := momentum, rsi := rsi_score, macd := macd_score,
    volume := volume_score, volatility := vol_control, upside := upside_score }

/-! ## Rounding helpers -/

/-- Python `int(x)`: truncation toward zero. -/
def pyTrunc (q : ℚ) : ℤ := if 0 ≤ q then ⌊q⌋ else ⌈q⌉

/-- Python `round(x)` on floats: round half to even (banker's rounding). -/
def rne (q : ℚ) : ℤ :=
  let f := ⌊q⌋
  let r := q - f
  if r < 1/2 then f
  else if 1/2 < r then f + 1
  else if 2 ∣ f then f else f + 1

/-- Python `round(x, 2)`. -/
def round2 (q : ℚ) : ℚ := (rne (q * 100) : ℚ) / 100

/-! ## Swing-setup calculator (`rank.build_swing_setup`) -/

structure SwingSetup where
  entry_low : ℚ
  entry_high : ℚ
  stop : ℚ
  target : ℚ
  rr : Option ℚ
deriving DecidableEq, Repr

/-- `rank.build_swing_setup`: ATR-anchored entry band, stop, target and
reward:risk.  `s.atr14 or (s.close * 0.01)` uses Python truthiness. -/
def build_swing_setup (s : TickerSnapshot) : Option SwingSetup :=
  match s.close with
  | none => none
  | some c =>
    let atr : ℚ :=
      match s.atr14 with
      | some a => if a = 0 then c * 0.01 else a
      | none => c * 0.01
    let entry_low := c - 0.2 * atr
    let entry_high := c + 0.2 * atr
    let stop := c - 1.5 * atr
    let target := c + 2.5 * atr
    let mid_entry := (entry_low + entry_high) / 2
    let rr : Option ℚ :=
      if stop = mid_entry then none
      else some (round2 ((target - mid_entry) / (mid_entry - stop)))
    some { entry_low := round2 entry_low, entry_high := round2 entry_high,
           stop := round2 stop, target := round2 target, rr := rr }

/-! ## Python truthiness on optional numbers -/

/-- Python `a or b` where `a` is an optional number: `None` and `0.0` are
falsy. -/
def pyOr (a b : Option ℚ) : Option ℚ :=
  match a with
  | some q => if q = 0 then b else some q
  | none => b

/-- Python `a or d` with a numeric default `d`. -/
def pyOrD (a : Option ℚ) (d : ℚ) : ℚ :=
  match a with
  | some q => if q = 0 then d else q
  | none => d

/-- Upper-casing of an ASCII ticker symbol (`str.upper`), written on the
character list so that it evaluates by `decide`. -/
def strUpper (s : String) : String := ⟨s.data.map Char.toUpper⟩

/-! ## Scheme B data model (`service/classes/types.py`) -/

structure Fundamentals where
  current_price : Option ℚ := none
  currentPrice : Option ℚ := none
  close : Option ℚ := none
  target_mean_price : Option ℚ := none
  targetMeanPrice : Option ℚ := none
  target : Option ℚ := none
  fifty_two_week_high : Option ℚ := none
  fiftyTwoWeekHigh : Option ℚ := none
  target_upside_pct : Option ℚ := none
  buy_rating_pct : Option ℚ := none
  rsi14 : Option ℚ := none
  sma50 : Option ℚ := none
  volume_trend : Option ℚ := none
  eps_growth_yoy : Option ℚ := none
  beta : Option ℚ := none
  forward_pe : Option ℚ := none
  forwardPE : Option ℚ := none
  sector : Option String := none
deriving DecidableEq, Repr

/-- One row of `earningsTrend.trend` (the keys read by the code). -/
structure EarnTrendRow where
  period : String := ""
  growth : Option ℚ := none
deriving DecidableEq, Repr

/-- One row of `recommendationTrend.trend` (the keys read by the code). -/
structure RecTrendRow where
  strongBuy : Option ℚ := none
  buy : Option ℚ := none
  hold : Option ℚ := none
  sell : Option ℚ := none
  strongSell : Option ℚ := none
deriving DecidableEq, Repr

structure Modules where
  earningsTrend_trend : Option (List EarnTrendRow) := none
  recommendationTrend_trend : Option (List RecTrendRow) := none
deriving DecidableEq, Repr

structure TickerPayload where
  ticker : String := ""
  fundamentals : Fundamentals := {}
  modules : Modules := {}
deriving DecidableEq, Repr

structure ScoreBreakdown where
  upside_pct : ℚ
  upside_points : ℚ
  earnings_points : ℚ
  analyst_points : ℚ
  technical_points : ℚ
deriving DecidableEq, Repr

structure ScoreResult where
  ticker : String
  score : ℚ
  upside_pct : ℚ
  allocation_pct : ℚ
  breakdown : ScoreBreakdown
  reason : String := ""
  beta : Option ℚ := none
  sector : Option String := none
  forward_pe : Option ℚ := none
deriving DecidableEq, Repr

/-! ## `scoring.py`: upside, earnings growth, confluence, score_ticker -/

/-- `scoring.compute_upside`: analyst-target upside with a 52-week-high
fallback.  All dict reads go through `_safe_num` which, on finite numeric
values, is the identity (its NaN behaviour is modelled by `safe_num`). -/
def compute_upside (f : Fundamentals) : Option ℚ :=
  let current := pyOr (pyOr f.current_price f.currentPrice) f.close
  let target := pyOr (pyOr f.target_mean_price f.targetMeanPrice) f.target
  let fifty_two_high := pyOr f.fifty_two_week_high f.fiftyTwoWeekHigh
  let fallback : Option ℚ :=
    match current, fifty_two_high with
    | some c, some h2 => if c ≠ 0 then some ((h2 - c) / c * 100) else none
    | _, _ => none
  match current, target with
  | some c, some t => if c ≠ 0 then some ((t - c) / c * 100) else fallback
  | _, _ => fallback

/-- `scoring.parse_earnings_growth`: average of the first `0y` and `+1y`
trend growths, ×100, floored at 0; 0 if the trend list is absent/empty. -/
def parse_earnings_growth (m : Modules) : ℚ :=
  match m.earningsTrend_trend with
  | none => 0
  | some trend =>
    let current := trend.find? (fun t => t.period == "0y" || t.period == "0Y")
    let next_year := trend.find? (fun t => t.period == "+1y" || t.period == "+1Y")
    let cur_growth := match current with | some t => t.growth | none => none
    let next_growth := match next_year with | some t => t.growth | none => none
    let vals := [cur_growth, next_growth].filterMap id
    if vals = [] then 0 else max 0 (vals.sum / vals.length * 100)

/-- `scoring.compute_confluence`: `(structure_pts, rsi_pts, volume_pts)`.
The structure test uses `_safe_num(cp)` truthiness, so `cp = 0` fails it;
the volume test uses `vol_val and vol_val > 1.0`. -/
def compute_confluence (f : Fundamentals) : ℚ × ℚ × ℚ :=
  let structure_pts : ℚ :=
    match f.sma50, f.current_price with
    | some s50, some cp => if cp ≠ 0 ∧ s50 < cp then 7 else 0
    | _, _ => 0
  let rsi_pts : ℚ :=
    match f.rsi14 with
    | some r => if 38 ≤ r ∧ r ≤ 62 then 7 else 0
    | none => 0
  let volume_pts : ℚ :=
    match f.volume_trend with
    | some v => if v ≠ 0 ∧ 1 < v then 6 else 0
    | none => 0
  (structure_pts, rsi_pts, volume_pts)

/-- `scoring.score_ticker`: the 0–100 point scheme.  Note the upside fallback
chain `compute_upside(...) or fundamentals.get("target_upside_pct") or 0.0`
uses Python truthiness, so a computed upside of exactly `0.0` falls through. -/
def score_ticker (p : TickerPayload) : Option ScoreResult :=
  let ticker := strUpper p.ticker
  if ticker = "" then none
  else
    let f := p.fundamentals
    let m := p.modules
    let upside_pct := pyOrD (pyOr (compute_upside f) f.target_upside_pct) 0
    let upside_points := min (max upside_pct 0) 120 * (40 / 120)
    let earnings_points := min (parse_earnings_growth m * 0.5) 25
    let trend_rows := m.recommendationTrend_trend.getD []
    let analyst_points : ℚ :=
      match trend_rows with
      | [] => 0
      | first :: _ =>
        let total_analysts := first.strongBuy.getD 0 + first.buy.getD 0
          + first.hold.getD 0 + first.sell.getD 0 + first.strongSell.getD 0
        let buy_sum := first.strongBuy.getD 0 + first.buy.getD 0
        let buy_pct := if total_analysts ≠ 0 then buy_sum / total_analysts * 100 else 0
        if 90 ≤ buy_pct then 15
        else if 70 ≤ buy_pct then 10
        else if 50 ≤ buy_pct then 5
        else 0
    let conf := compute_confluence f
    let technical_points := conf.1 + conf.2.1 + conf.2.2
    let total_score := upside_points + earnings_points + analyst_points + technical_points
    some { ticker := ticker, score := total_score, upside_pct := upside_pct,
           allocation_pct := 0,
           breakdown := { upside_pct := upside_pct, upside_points := upside_points,
                          earnings_points := earnings_points,
                          analyst_points := analyst_points,
                          technical_points := technical_points },
           beta := f.beta, sector := f.sector,
           forward_pe := pyOr f.forward_pe f.forwardPE }

/-! ## `scoring.allocate`: largest-remainder allocation with safety pass -/

/-- `max(range(len(alloc)), key=lambda i: alloc[i])`: index of the first
maximal entry (Python `max` keeps the first maximum). -/
def donorIdx (a : List ℤ) : ℕ :=
  (List.range a.length).foldl (fun best i => if a.getD best 0 < a.getD i 0 then i else best) 0

/-- One `+1` step of the positive-remainder distribution:
`idx = fracs[i % len(fracs)][0]; alloc[idx] += 1`. -/
def bumpAt (fracs : List (ℕ × ℚ)) (a : List ℤ) (i : ℕ) : List ℤ :=
  let idx := (fracs.getD (i % fracs.length) (0, 0)).1
  a.set idx (a.getD idx 0 + 1)

/-- One `-1` step of the negative-remainder removal:
`idx = fracs[-(i % len(fracs)) - 1][0]; if alloc[idx] > 0: alloc[idx] -= 1`. -/
def dropAt (fracs : List (ℕ × ℚ)) (a : List ℤ) (i : ℕ) : List ℤ :=
  let idx := (fracs.getD (fracs.length - 1 - i % fracs.length) (0, 0)).1
  if 0 < a.getD idx 0 then a.set idx (a.getD idx 0 - 1) else a

/-- One step of the zero-allocation safety pass: the zero candidate `zi`
steals 1 point from the first currently-largest allocation, if that donor
holds more than 1. -/
def stealStep (a : List ℤ) (zi : ℕ) : List ℤ :=
  let donor := donorIdx a
  if 1 < a.getD donor 0 then
    let a' := a.set donor (a.getD donor 0 - 1)
    a'.set zi (a'.getD zi 0 + 1)
  else a

/-- `raw = [s.score / total * 100 for s in positive]` (the caller passes the
positive scores; `total` is their sum). -/
def lrRaw (sc : List ℚ) : List ℚ := sc.map (fun s => s / sc.sum * 100)

/-- `floors = [int(v) for v in raw]`. -/
def lrFloors (sc : List ℚ) : List ℤ := (lrRaw sc).map pyTrunc

/-- `remainder = 100 - sum(floors)`. -/
def lrRemainder (sc : List ℚ) : ℤ := 100 - (lrFloors sc).sum

/-- `fracs = [(i, raw[i] - floors[i]) ...]` sorted by fractional part,
descending, stable (`sort(key=..., reverse=True)`). -/
def lrFracs (sc : List ℚ) : List (ℕ × ℚ) :=
  ((List.range (lrRaw sc).length).map
    (fun i => (i, (lrRaw sc).getD i 0 - (((lrFloors sc).getD i 0 : ℤ) : ℚ)))).mergeSort
    (fun a b => decide (b.2 ≤ a.2))

/-- The allocation vector after the remainder redistribution branches. -/
def lrAlloc1 (sc : List ℚ) : List ℤ :=
  if 0 < lrRemainder sc then
    (List.range (lrRemainder sc).toNat).foldl (bumpAt (lrFracs sc)) (lrFloors sc)
  else if lrRemainder sc < 0 then
    (List.range (-lrRemainder sc).toNat).foldl (dropAt (lrFracs sc)) (lrFloors sc)
  else lrFloors sc

/-- The integer-percentage core of `scoring.allocate`, applied to the scores
of the positive candidates (`s.score > 0` filtered by the caller): raw
largest-remainder shares, truncation, remainder redistribution by fractional
part, and the zero-allocation safety pass over the indices that are still 0. -/
def lrAlloc (sc : List ℚ) : List ℤ :=
  ((List.range (lrAlloc1 sc).length).filter (fun i => (lrAlloc1 sc).getD i 0 = 0)).foldl
    stealStep (lrAlloc1 sc)

/-- `scoring.allocate`: proportional integer allocation totalling exactly
100, skipped entirely when the positive-score total is `0`. -/
def allocate (scores : List ScoreResult) : List ScoreResult :=
  let positive := scores.filter (fun s => decide (0 < s.score))
  let total := (positive.map ScoreResult.score).sum
  if total = 0 then scores
  else
    ((lrAlloc (positive.map ScoreResult.score)).zip positive).map
      (fun p => { ticker := p.2.ticker, score := p.2.score,
                  upside_pct := p.2.upside_pct, allocation_pct := (p.1 : ℚ),
                  breakdown := p.2.breakdown, reason := p.2.reason,
                  beta := p.2.beta, sector := p.2.sector,
                  forward_pe := p.2.forward_pe })

/-- `recommender.score_and_allocate`: score, sort descending by score
(stable), truncate to `top_n`, allocate. -/
def score_and_allocate (payloads : List TickerPayload) (top_n : ℕ) : List ScoreResult :=
  let scored := payloads.filterMap score_ticker
  let scored := scored.mergeSort (fun a b => decide (b.score ≤ a.score))
  let scored := if 0 < top_n then scored.take top_n else scored
  allocate scored

/-! ## `ai_helper.deterministic_portfolio_rank`: scoring core -/

/-- `_to_pct` inside `_earn_points`: failed/non-finite conversion is `0.0`;
a fraction with `|f| ≤ 1` is scaled to a percentage. -/
def to_pct (v : Option ℚ) : ℚ :=
  match v with
  | none => 0
  | some f => if |f| ≤ 1 then f * 100 else f

/-- An enriched item as consumed by `_score` / `_earn_points`, at the level
of already symbol-coerced module values (`_coerce_mod`, `_mod_value` and the
enrichment `or`-chains are upstream of these fields). -/
structure AiItem where
  upside : Option ℚ := none
  currentPrice : Option ℚ := none
  sma50 : Option ℚ := none
  rsi : Option ℚ := none
  volume_trend : Option ℚ := none
  buy_rating_pct : Option ℚ := none
  earnTrend : List EarnTrendRow := []
  earningsGrowthFin : Option ℚ := none
  eps_growth_yoy : Option ℚ := none
deriving DecidableEq, Repr

/-- `_earn_points`: the last `0y` / `+1y` trend growths (the scan overwrites
on repeats), percent-scaled and floored at 0, with a
`financialData.earningsGrowth` / `fundamentals.eps_growth_yoy` fallback when
both are 0; `0.5·g0 + 0.5·g1` capped at 25. -/
def earn_points (it : AiItem) : ℚ :=
  let gs := it.earnTrend.foldl
    (fun (g : Option ℚ × Option ℚ) row =>
      if strUpper row.period = "0Y" then (row.growth, g.2)
      else if strUpper row.period = "+1Y" then (g.1, row.growth)
      else g) (none, none)
  let g0 := max 0 (to_pct gs.1)
  let g1 := max 0 (to_pct gs.2)
  let gs' : ℚ × ℚ :=
    if g0 = 0 ∧ g1 = 0 then
      let fallback_growth :=
        match it.earningsGrowthFin with
        | some v => some v
        | none => it.eps_growth_yoy
      let fg := to_pct fallback_growth
      (max g0 (max 0 fg), max g1 (max 0 fg))
    else (g0, g1)
  min 25 (gs'.1 * 0.5 + gs'.2 * 0.5)

structure AiScoreParts where
  total : ℚ
  upside_pts : ℚ
  earn_pts : ℚ
  analyst_pts : ℚ
  tech_pts : ℚ
deriving DecidableEq, Repr

/-- `_score`: 40-point capped upside, 25-point capped earnings, bucketed
analyst conviction, 7+7+6 technical confluence. -/
def aiScore (it : AiItem) : AiScoreParts :=
  let upside := pyOrD it.upside 0
  let upside_pts := min (max upside 0) 120 * (40 / 120)
  let earn_pts := earn_points it
  let buy_pct := pyOrD it.buy_rating_pct 0
  let analyst_pts : ℚ :=
    if 90 ≤ buy_pct then 15
    else if 70 ≤ buy_pct then 10
    else if 50 ≤ buy_pct then 5
    else 0
  let tech_pts : ℚ :=
    (match it.currentPrice, it.sma50 with
     | some c, some s50 => if s50 < c then 7 else 0
     | _, _ => 0)
    + (match it.rsi with
       | some r => if 38 ≤ r ∧ r ≤ 62 then 7 else 0
       | none => 0)
    + (match it.volume_trend with
       | some v => if 1 < v then 6 else 0
       | none => 0)
  { total := upside_pts + earn_pts + analyst_pts + tech_pts,
    upside_pts := upside_pts, earn_pts := earn_pts,
    analyst_pts := analyst_pts, tech_pts := tech_pts }

/-- The score-30 gate and descending (score, upside) sort of
`deterministic_portfolio_rank`:
`scored = [r for r in enriched if (r.get("score") or 0) >= 30]` followed by
`scored.sort(key=lambda r: (-(r.get("score") or 0), -(r.get("upside") or 0)))`. -/
def detScored (items : List AiItem) : List (AiItem × ℚ) :=
  let withScores := items.map (fun it => (it, (aiScore it).total))
  let gated := withScores.filter (fun p => decide (30 ≤ p.2))
  gated.mergeSort (fun a b =>
    decide (b.2 < a.2 ∨ (a.2 = b.2 ∧ pyOrD b.1.upside 0 ≤ pyOrD a.1.upside 0)))

/-- Scan for the next index position (cycling through `order`) whose
allocation is still positive; gives up after `k` steps (one full cycle in
use).  Models the skipping behaviour of the negative-residual `while` loop. -/
def scanPos (a : List ℤ) (order : List ℕ) (start : ℕ) : ℕ → Option ℕ
  | 0 => none
  | k + 1 =>
    if 0 < a.getD (order.getD (start % order.length) 0) 0 then some start
    else scanPos a order (start + 1) k

/-- The negative-residual `while` loop of `deterministic_portfolio_rank`:
`m` is `-residual`; each round skips zero allocations (at most one full
cycle — if a whole cycle holds no positive entry the Python loop would spin
forever, which the sum invariant rules out) and then decrements one positive
allocation. -/
def detDecLoop : ℕ → List ℤ → List ℕ → ℕ → List ℤ
  | 0, a, _, _ => a
  | m + 1, a, order, idx =>
    match scanPos a order idx order.length with
    | none => a
    | some p =>
      let i := order.getD (p % order.length) 0
      detDecLoop m (a.set i (a.getD i 0 - 1)) order (p + 1)

/-- `raw_pct = (r["score"] / total_score) * 100` over the top-10 slice of the
gated, sorted candidates, with `total_score = sum(scores) or 1.0`. -/
def detRaw (sc : List ℚ) : List ℚ :=
  (sc.take 10).map (fun s => s / (if sc.sum = 0 then 1 else sc.sum) * 100)

/-- `allocs = [int(round(item["raw"])) for item in alloc_data]`. -/
def detAllocs0 (sc : List ℚ) : List ℤ := (detRaw sc).map rne

/-- `residual = 100 - total_alloc`. -/
def detResidual (sc : List ℚ) : ℤ := 100 - (detAllocs0 sc).sum

/-- `fracs = [item["raw"] - int(item["raw"]) for item in alloc_data]`. -/
def detFracs (sc : List ℚ) : List ℚ := (detRaw sc).map (fun v => v - (pyTrunc v : ℚ))

/-- `order = sorted(range(len(fracs)), key=lambda i: fracs[i], reverse=True)`. -/
def detOrderDesc (sc : List ℚ) : List ℕ :=
  (List.range (detFracs sc).length).mergeSort
    (fun i j => decide ((detFracs sc).getD j 0 ≤ (detFracs sc).getD i 0))

/-- `order = sorted(range(len(fracs)), key=lambda i: fracs[i])`. -/
def detOrderAsc (sc : List ℚ) : List ℕ :=
  (List.range (detFracs sc).length).mergeSort
    (fun i j => decide ((detFracs sc).getD i 0 ≤ (detFracs sc).getD j 0))

/-- The rounding-based allocator of `deterministic_portfolio_rank`, applied
to the scores of the gated, sorted candidates: `int(round(raw))` per share,
then residual redistribution cycling over the fractional-part order (while
loops guarded by `residual != 0 and order`) until the total is exactly 100. -/
def detAlloc (sc : List ℚ) : List ℤ :=
  if detResidual sc = 0 then detAllocs0 sc
  else if 0 < detResidual sc then
    if detOrderDesc sc = [] then detAllocs0 sc
    else
      (List.range (detResidual sc).toNat).foldl
        (fun a k =>
          let i := (detOrderDesc sc).getD (k % (detOrderDesc sc).length) 0
          a.set i (a.getD i 0 + 1)) (detAllocs0 sc)
  else
    if detOrderAsc sc = [] then detAllocs0 sc
    else detDecLoop (-detResidual sc).toNat (detAllocs0 sc) (detOrderAsc sc) 0

/-! ## `rank.rank_tickers`: the Scheme-A ranking sort -/

/-- The fields of a scored row that the `rank_tickers` sort key reads
(`r.get("score")`, `r.get("upside_pct")`, `r.get("atr_pct")`). -/
structure ScoredRow where
  score : Option ℚ := none
  upside_pct : Option ℚ := none
  atr_pct : Option ℚ := none
deriving DecidableEq, Repr

/-- `r.get("atr_pct") if r.get("atr_pct") is not None else math.inf`:
a missing ATR% is `⊤` (+infinity). -/
def atrInf (r : ScoredRow) : WithTop ℚ :=
  match r.atr_pct with
  | some q => (q : WithTop ℚ)
  | none => ⊤

/-- The sort key `(-(score or 0), -(upside_pct or 0), atr_pct or inf)`. -/
def rankKey (r : ScoredRow) : ℚ × ℚ × WithTop ℚ :=
  (-(r.score.getD 0), -(r.upside_pct.getD 0), atrInf r)

/-- Lexicographic comparison of sort keys (Python tuple order). -/
def keyLE (x y : ℚ × ℚ × WithTop ℚ) : Prop :=
  x.1 < y.1 ∨ (x.1 = y.1 ∧ (x.2.1 < y.2.1 ∨ (x.2.1 = y.2.1 ∧ x.2.2 ≤ y.2.2)))

instance keyLE.dec : ∀ x y, Decidable (keyLE x y) := by
  intro x y
  unfold keyLE
  infer_instance

/-- The claim's reading of the sort key, on the rows themselves: descending
score, then descending upside, then ascending ATR% with missing ATR% last. -/
def rowLE (a b : ScoredRow) : Prop :=
  b.score.getD 0 < a.score.getD 0 ∨
    (a.score.getD 0 = b.score.getD 0 ∧
      (b.upside_pct.getD 0 < a.upside_pct.getD 0 ∨
        (a.upside_pct.getD 0 = b.upside_pct.getD 0 ∧ atrInf a ≤ atrInf b)))

/-- The stable sort of `rank_tickers`:
`scored.sort(key=lambda r: (-(score or 0), -(upside or 0), atr_pct or inf))`. -/
def rank_sort (l : List ScoredRow) : List ScoredRow :=
  l.mergeSort (fun a b => decide (keyLE (rankKey a) (rankKey b)))

/-! ## Generic list helpers (getD / set / sum bookkeeping) -/

theorem getD_set_self (l : List ℤ) (i : ℕ) (x : ℤ) (h : i < l.length) :
    (l.set i x).getD i 0 = x := by
  simp [List.getD_eq_getElem?_getD, List.getElem?_set_self', h]

theorem getD_set_ne (l : List ℤ) (i j : ℕ) (x : ℤ) (h : i ≠ j) :
    (l.set i x).getD j 0 = l.getD j 0 := by
  simp [List.getD_eq_getElem?_getD, List.getElem?_set_ne h]

theorem sum_set_int (l : List ℤ) (i : ℕ) (x : ℤ) (h : i < l.length) :
    (l.set i x).sum = l.sum - l.getD i 0 + x := by
  rw [List.sum_set']
  rw [dif_pos h]
  rw [List.getD_eq_getElem l 0 h]
  ring

theorem mem_of_getD_lt {l : List ℤ} {j : ℕ} (hj : j < l.length) :
    l.getD j 0 ∈ l := by
  rw [List.getD_eq_getElem l 0 hj]
  exact List.getElem_mem hj

theorem getD_nonneg_of_forall_mem {l : List ℤ} (h : ∀ x ∈ l, 0 ≤ x) (j : ℕ) :
    0 ≤ l.getD j 0 := by
  by_cases hj : j < l.length
  · exact h _ (mem_of_getD_lt hj)
  · simp [List.getD_eq_getElem?_getD, List.getElem?_eq_none (le_of_not_lt hj)]

theorem sum_nonpos_of_forall_nonpos : ∀ (l : List ℤ), (∀ x ∈ l, x ≤ 0) → l.sum ≤ 0
  | [], _ => by simp
  | a :: l, h => by
      have h1 := h a (by simp)
      have h2 := sum_nonpos_of_forall_nonpos l (fun x hx => h x (by simp [hx]))
      simp only [List.sum_cons]
      omega

theorem exists_pos_entry {l : List ℤ} (hs : 0 < l.sum) :
    ∃ j < l.length, 0 < l.getD j 0 := by
  by_contra hc
  push_neg at hc
  have : l.sum ≤ 0 := by
    apply sum_nonpos_of_forall_nonpos
    intro x hx
    obtain ⟨j, hj, rfl⟩ := List.mem_iff_getElem.1 hx
    have := hc j hj
    rw [List.getD_eq_getElem l 0 hj] at this
    exact this
  omega

theorem sum_le_bound_mul_length : ∀ (l : List ℤ) (c : ℤ), (∀ x ∈ l, x ≤ c) →
    l.sum ≤ c * l.length
  | [], _, _ => by simp
  | a :: l, c, h => by
      have h1 := h a (by simp)
      have h2 := sum_le_bound_mul_length l c (fun x hx => h x (by simp [hx]))
      simp only [List.sum_cons, List.length_cons]
      push_cast
      nlinarith

theorem map_fst_zip_fun {α β γ : Type} (g : α → γ) :
    ∀ (l₁ : List α) (l₂ : List β), l₁.length ≤ l₂.length →
    (l₁.zip l₂).map (fun p => g p.1) = l₁.map g
  | [], _, _ => by simp
  | a :: l₁, [], h => by simp at h
  | a :: l₁, b :: l₂, h => by
      simp only [List.zip_cons_cons, List.map_cons, List.cons.injEq, true_and]
      exact map_fst_zip_fun g l₁ l₂ (by simpa using h)

theorem sum_map_intCast : ∀ (l : List ℤ), (List.map (fun z : ℤ => (z : ℚ)) l).sum = (l.sum : ℚ)
  | [] => by simp
  | a :: l => by
      rw [List.map_cons, List.sum_cons, sum_map_intCast l, List.sum_cons]
      push_cast
      ring

/-! ## Properties of the rounding helpers -/

theorem pyTrunc_of_nonneg {q : ℚ} (h : 0 ≤ q) : pyTrunc q = ⌊q⌋ := if_pos h

theorem pyTrunc_nonneg {q : ℚ} (h : 0 ≤ q) : 0 ≤ pyTrunc q := by
  rw [pyTrunc_of_nonneg h]
  exact Int.floor_nonneg.mpr h

theorem pyTrunc_le {q : ℚ} (h : 0 ≤ q) : (pyTrunc q : ℚ) ≤ q := by
  rw [pyTrunc_of_nonneg h]
  exact Int.floor_le q

theorem lt_pyTrunc_add_one {q : ℚ} (h : 0 ≤ q) : q < (pyTrunc q : ℚ) + 1 := by
  rw [pyTrunc_of_nonneg h]
  exact_mod_cast Int.lt_floor_add_one q

theorem rne_nonneg {q : ℚ} (h : 0 ≤ q) : 0 ≤ rne q := by
  have hf : 0 ≤ ⌊q⌋ := Int.floor_nonneg.mpr h
  unfold rne
  dsimp only
  split_ifs <;> omega

/-! ## The `+1` distribution fold (positive remainder / positive residual) -/

theorem add_fold (n : ℕ) (idxf : ℕ → ℕ) (hidx : ∀ k, idxf k < n) :
    ∀ (ks : List ℕ) (a : List ℤ), a.length = n →
    ((ks.foldl (fun a k => a.set (idxf k) (a.getD (idxf k) 0 + 1)) a).length = n ∧
     (ks.foldl (fun a k => a.set (idxf k) (a.getD (idxf k) 0 + 1)) a).sum = a.sum + ks.length ∧
     ∀ j, a.getD j 0 ≤ (ks.foldl (fun a k => a.set (idxf k) (a.getD (idxf k) 0 + 1)) a).getD j 0)
  | [], a, hlen => by simp [hlen]
  | k :: ks, a, hlen => by
      have hk : idxf k < a.length := by rw [hlen]; exact hidx k
      have hstep : (a.set (idxf k) (a.getD (idxf k) 0 + 1)).length = n := by
        simpa using hlen
      obtain ⟨h1, h2, h3⟩ := add_fold n idxf hidx ks (a.set (idxf k) (a.getD (idxf k) 0 + 1)) hstep
      refine ⟨h1, ?_, ?_⟩
      · rw [List.foldl_cons, h2, sum_set_int a (idxf k) _ hk]
        simp only [List.length_cons]
        push_cast
        ring
      · intro j
        rw [List.foldl_cons]
        refine le_trans ?_ (h3 j)
        by_cases hj : j = idxf k
        · rw [hj, getD_set_self a (idxf k) _ hk]
          omega
        · rw [getD_set_ne a (idxf k) j _ (fun he => hj he.symm)]

/-! ## `donorIdx`: the first index of a maximal allocation -/

theorem foldl_max_spec (a : List ℤ) :
    ∀ (ks : List ℕ) (b : ℕ),
      ((ks.foldl (fun best i => if a.getD best 0 < a.getD i 0 then i else best) b) = b ∨
        (ks.foldl (fun best i => if a.getD best 0 < a.getD i 0 then i else best) b) ∈ ks) ∧
      a.getD b 0 ≤ a.getD (ks.foldl (fun best i => if a.getD best 0 < a.getD i 0 then i else best) b) 0 ∧
      ∀ k ∈ ks, a.getD k 0 ≤ a.getD (ks.foldl (fun best i => if a.getD best 0 < a.getD i 0 then i else best) b) 0
  | [], b => by simp
  | k :: ks, b => by
      obtain ⟨h1, h2, h3⟩ := foldl_max_spec a ks (if a.getD b 0 < a.getD k 0 then k else b)
      rw [List.foldl_cons]
      refine ⟨?_, ?_, ?_⟩
      · rcases h1 with h | h
        · rw [h]
          split_ifs
          · exact Or.inr (List.mem_cons_self k ks)
          · exact Or.inl rfl
        · exact Or.inr (List.mem_cons_of_mem k h)
      · refine le_trans ?_ h2
        split_ifs with hlt
        · exact le_of_lt hlt
        · exact le_refl _
      · intro j hj
        rcases List.mem_cons.1 hj with rfl | hj'
        · refine le_trans ?_ h2
          split_ifs with hlt
          · exact le_refl _
          · exact le_of_not_lt hlt
        · exact h3 j hj'

theorem donorIdx_lt {a : List ℤ} (h : a ≠ []) : donorIdx a < a.length := by
  have hlen : 0 < a.length := List.length_pos.mpr h
  obtain ⟨h1, -, -⟩ := foldl_max_spec a (List.range a.length) 0
  unfold donorIdx
  rcases h1 with he | he
  · rw [he]; exact hlen
  · exact List.mem_range.1 he

theorem donorIdx_max (a : List ℤ) : ∀ j < a.length, a.getD j 0 ≤ a.getD (donorIdx a) 0 := by
  intro j hj
  obtain ⟨-, -, h3⟩ := foldl_max_spec a (List.range a.length) 0
  exact h3 j (List.mem_range.mpr hj)

theorem ten_le_donor {a : List ℤ} (hlen : a.length ≤ 10) (hsum : a.sum = 100) :
    10 ≤ a.getD (donorIdx a) 0 := by
  by_contra hlt
  push_neg at hlt
  have hall : ∀ x ∈ a, x ≤ 9 := by
    intro x hx
    obtain ⟨j, hj, rfl⟩ := List.mem_iff_getElem.1 hx
    rw [← List.getD_eq_getElem a 0 hj]
    exact le_trans (donorIdx_max a j hj) (by omega)
  have := sum_le_bound_mul_length a 9 hall
  have hlen' : (a.length : ℤ) ≤ 10 := by exact_mod_cast hlen
  nlinarith

/-! ## The safety pass (`stealStep` fold) -/

theorem stealStep_length (a : List ℤ) (zi : ℕ) : (stealStep a zi).length = a.length := by
  unfold stealStep
  dsimp only
  split_ifs <;> simp

theorem stealStep_sum (a : List ℤ) (zi : ℕ) (ha : a ≠ []) (hz : zi < a.length) :
    (stealStep a zi).sum = a.sum := by
  unfold stealStep
  dsimp only
  split_ifs with hd
  · have hdl : donorIdx a < a.length := donorIdx_lt ha
    rw [sum_set_int _ zi _ (by simpa using hz), sum_set_int a (donorIdx a) _ hdl]
    ring
  · rfl

theorem stealStep_nonneg (a : List ℤ) (zi : ℕ) (h : ∀ j, 0 ≤ a.getD j 0) :
    ∀ j, 0 ≤ (stealStep a zi).getD j 0 := by
  intro j
  unfold stealStep
  dsimp only
  split_ifs with hd
  · have ha' : ∀ j, 0 ≤ (a.set (donorIdx a) (a.getD (donorIdx a) 0 - 1)).getD j 0 := by
      intro j'
      by_cases hj' : donorIdx a = j'
      · by_cases hlt : donorIdx a < a.length
        · subst hj'
          rw [getD_set_self a _ _ hlt]
          omega
        · rw [List.set_eq_of_length_le (le_of_not_lt hlt)]
          exact h j'
      · rw [getD_set_ne a _ _ _ hj']
        exact h j'
    by_cases hj : zi = j
    · subst hj
      by_cases hlt : zi < a.length
      · rw [getD_set_self _ zi _ (by simpa using hlt)]
        have := ha' zi
        omega
      · rw [List.set_eq_of_length_le (by simpa using le_of_not_lt hlt)]
        exact ha' zi
    · rw [getD_set_ne _ _ _ _ hj]
      exact ha' j
  · exact h j

theorem steal_fold :
    ∀ (zs : List ℕ) (a : List ℤ), a ≠ [] → (∀ z ∈ zs, z < a.length) →
    ((zs.foldl stealStep a).length = a.length ∧ (zs.foldl stealStep a).sum = a.sum ∧
      ((∀ j, 0 ≤ a.getD j 0) → ∀ j, 0 ≤ (zs.foldl stealStep a).getD j 0))
  | [], a, _, _ => by simp
  | z :: zs, a, hne, hz => by
      have hz0 : z < a.length := hz z (by simp)
      have hne' : stealStep a z ≠ [] := by
        intro he
        apply hne
        have := stealStep_length a z
        rw [he] at this
        exact List.length_eq_zero.mp this.symm
      have hzs : ∀ z' ∈ zs, z' < (stealStep a z).length := by
        intro z' hz'
        rw [stealStep_length]
        exact hz z' (by simp [hz'])
      obtain ⟨h1, h2, h3⟩ := steal_fold zs (stealStep a z) hne' hzs
      rw [List.foldl_cons]
      refine ⟨by rw [h1, stealStep_length], by rw [h2, stealStep_sum a z hne hz0], ?_⟩
      intro hnn
      exact h3 (stealStep_nonneg a z hnn)

/-! ## Largest-remainder invariants (`lrAlloc`) -/

theorem getD_mem_of_lt {α : Type} (l : List α) (d : α) {j : ℕ} (hj : j < l.length) :
    l.getD j d ∈ l := by
  rw [List.getD_eq_getElem l d hj]
  exact List.getElem_mem hj

theorem sum_map_div_mul (sc : List ℚ) (T : ℚ) :
    (sc.map (fun s => s / T * 100)).sum = sc.sum / T * 100 := by
  induction sc with
  | nil => simp
  | cons a l ih => simp [ih, add_div, add_mul]

theorem sum_map_add_one (l : List ℚ) (f : ℚ → ℚ) :
    (l.map (fun q => f q + 1)).sum = (l.map f).sum + l.length := by
  induction l with
  | nil => simp
  | cons a l ih =>
      simp only [List.map_cons, List.sum_cons, ih, List.length_cons]
      push_cast
      ring

theorem lrRaw_length (sc : List ℚ) : (lrRaw sc).length = sc.length := by simp [lrRaw]

theorem lrFloors_length (sc : List ℚ) : (lrFloors sc).length = sc.length := by
  simp [lrFloors, lrRaw_length]

theorem lrRaw_sum {sc : List ℚ} (h : sc.sum ≠ 0) : (lrRaw sc).sum = 100 := by
  rw [lrRaw, sum_map_div_mul, div_self h, one_mul]

theorem lrRaw_pos {sc : List ℚ} (hne : sc ≠ []) (hpos : ∀ s ∈ sc, 0 < s) :
    ∀ x ∈ lrRaw sc, 0 < x := by
  have hT : 0 < sc.sum := List.sum_pos sc hpos hne
  intro x hx
  obtain ⟨s, hs, rfl⟩ := List.mem_map.1 hx
  have := hpos s hs
  positivity

theorem lrFloors_nonneg {sc : List ℚ} (hne : sc ≠ []) (hpos : ∀ s ∈ sc, 0 < s) :
    ∀ x ∈ lrFloors sc, 0 ≤ x := by
  intro x hx
  obtain ⟨q, hq, rfl⟩ := List.mem_map.1 hx
  exact pyTrunc_nonneg (le_of_lt (lrRaw_pos hne hpos q hq))

theorem lrFloors_sum_le {sc : List ℚ} (hne : sc ≠ []) (hpos : ∀ s ∈ sc, 0 < s) :
    (((lrFloors sc).sum : ℤ) : ℚ) ≤ 100 := by
  have hT : sc.sum ≠ 0 := ne_of_gt (List.sum_pos sc hpos hne)
  have h1 : (((lrFloors sc).sum : ℤ) : ℚ) = ((lrRaw sc).map (fun q => (pyTrunc q : ℚ))).sum := by
    rw [← sum_map_intCast, lrFloors, List.map_map]
    rfl
  have h2 : ((lrRaw sc).map (fun q => (pyTrunc q : ℚ))).sum ≤ ((lrRaw sc).map id).sum := by
    apply List.sum_le_sum
    intro q hq
    exact pyTrunc_le (le_of_lt (lrRaw_pos hne hpos q hq))
  rw [h1]
  calc ((lrRaw sc).map (fun q => (pyTrunc q : ℚ))).sum ≤ ((lrRaw sc).map id).sum := h2
    _ = (lrRaw sc).sum := by rw [List.map_id]
    _ = 100 := lrRaw_sum hT

theorem lrFloors_sum_gt {sc : List ℚ} (hne : sc ≠ []) (hpos : ∀ s ∈ sc, 0 < s) :
    (100 : ℚ) < (((lrFloors sc).sum : ℤ) : ℚ) + sc.length := by
  have hT : sc.sum ≠ 0 := ne_of_gt (List.sum_pos sc hpos hne)
  have h1 : (((lrFloors sc).sum : ℤ) : ℚ) = ((lrRaw sc).map (fun q => (pyTrunc q : ℚ))).sum := by
    rw [← sum_map_intCast, lrFloors, List.map_map]
    rfl
  have hrne : lrRaw sc ≠ [] := by
    intro h
    apply hne
    have := lrRaw_length sc
    rw [h] at this
    exact List.length_eq_zero.mp this.symm
  have h2 : ((lrRaw sc).map id).sum < ((lrRaw sc).map (fun q => (pyTrunc q : ℚ) + 1)).sum := by
    apply List.sum_lt_sum
    · intro q hq
      exact le_of_lt (lt_pyTrunc_add_one (le_of_lt (lrRaw_pos hne hpos q hq)))
    · cases hr : lrRaw sc with
      | nil => exact absurd hr hrne
      | cons q t =>
          refine ⟨q, List.mem_cons_self q t, ?_⟩
          have hq : q ∈ lrRaw sc := by rw [hr]; exact List.mem_cons_self q t
          exact lt_pyTrunc_add_one (le_of_lt (lrRaw_pos hne hpos q hq))
  rw [sum_map_add_one, ← h1, List.map_id, lrRaw_sum hT, lrRaw_length] at h2
  linarith

theorem lrRemainder_nonneg {sc : List ℚ} (hne : sc ≠ []) (hpos : ∀ s ∈ sc, 0 < s) :
    0 ≤ lrRemainder sc := by
  have h : (((lrFloors sc).sum : ℤ) : ℚ) ≤ 100 := lrFloors_sum_le hne hpos
  have h' : (lrFloors sc).sum ≤ 100 := by exact_mod_cast h
  unfold lrRemainder
  omega

theorem lrRemainder_lt {sc : List ℚ} (hne : sc ≠ []) (hpos : ∀ s ∈ sc, 0 < s) :
    lrRemainder sc < sc.length := by
  have h := lrFloors_sum_gt hne hpos
  have h' : (100 : ℤ) < (lrFloors sc).sum + sc.length := by exact_mod_cast h
  unfold lrRemainder
  omega

theorem lrFracs_length (sc : List ℚ) : (lrFracs sc).length = sc.length := by
  simp [lrFracs, lrRaw_length]

theorem lrFracs_fst_lt (sc : List ℚ) : ∀ p ∈ lrFracs sc, p.1 < sc.length := by
  intro p hp
  rw [lrFracs, List.mem_mergeSort] at hp
  obtain ⟨i, hi, rfl⟩ := List.mem_map.1 hp
  simpa [lrRaw_length] using List.mem_range.1 hi

theorem lrAlloc1_spec {sc : List ℚ} (hne : sc ≠ []) (hpos : ∀ s ∈ sc, 0 < s) :
    (lrAlloc1 sc).length = sc.length ∧ (lrAlloc1 sc).sum = 100 ∧
      ∀ j, 0 ≤ (lrAlloc1 sc).getD j 0 := by
  have hr0 : 0 ≤ lrRemainder sc := lrRemainder_nonneg hne hpos
  have hfl : (lrFloors sc).length = sc.length := lrFloors_length sc
  have hfs : (lrFloors sc).sum = 100 - lrRemainder sc := by unfold lrRemainder; ring
  have hfnn : ∀ j, 0 ≤ (lrFloors sc).getD j 0 :=
    getD_nonneg_of_forall_mem (lrFloors_nonneg hne hpos)
  have hscpos : 0 < sc.length := List.length_pos.mpr hne
  unfold lrAlloc1
  rcases lt_trichotomy (lrRemainder sc) 0 with hlt | heq | hgt
  · omega
  · rw [heq]
    simp only [lt_irrefl, if_false]
    exact ⟨hfl, by omega, hfnn⟩
  · rw [if_pos hgt]
    have hflen : (lrFracs sc).length = sc.length := lrFracs_length sc
    have hidx : ∀ k, ((lrFracs sc).getD (k % (lrFracs sc).length) (0, 0)).1 < sc.length := by
      intro k
      have hlt : k % (lrFracs sc).length < (lrFracs sc).length :=
        Nat.mod_lt k (by omega)
      exact lrFracs_fst_lt sc _ (getD_mem_of_lt (lrFracs sc) (0, 0) hlt)
    have hbump : bumpAt (lrFracs sc) = fun (a : List ℤ) (k : ℕ) =>
        a.set ((lrFracs sc).getD (k % (lrFracs sc).length) (0, 0)).1
          (a.getD ((lrFracs sc).getD (k % (lrFracs sc).length) (0, 0)).1 0 + 1) := rfl
    rw [hbump]
    obtain ⟨h1, h2, h3⟩ := add_fold sc.length
      (fun k => ((lrFracs sc).getD (k % (lrFracs sc).length) (0, 0)).1) hidx
      (List.range (lrRemainder sc).toNat) (lrFloors sc) hfl
    refine ⟨h1, ?_, fun j => le_trans (hfnn j) (h3 j)⟩
    rw [h2, hfs]
    simp only [List.length_range]
    omega

theorem lrAlloc_spec {sc : List ℚ} (hne : sc ≠ []) (hpos : ∀ s ∈ sc, 0 < s) :
    (lrAlloc sc).length = sc.length ∧ (lrAlloc sc).sum = 100 ∧
      ∀ j, 0 ≤ (lrAlloc sc).getD j 0 := by
  obtain ⟨hl, hs, hn⟩ := lrAlloc1_spec hne hpos
  have ha1ne : lrAlloc1 sc ≠ [] := by
    intro he
    rw [he] at hl
    exact hne (List.length_eq_zero.mp hl.symm)
  have hzs : ∀ z ∈ (List.range (lrAlloc1 sc).length).filter
      (fun i => (lrAlloc1 sc).getD i 0 = 0), z < (lrAlloc1 sc).length := by
    intro z hz
    exact List.mem_range.1 (List.mem_of_mem_filter hz)
  obtain ⟨f1, f2, f3⟩ := steal_fold _ (lrAlloc1 sc) ha1ne hzs
  unfold lrAlloc
  exact ⟨f1.trans hl, f2.trans hs, f3 hn⟩

/-! ## The safety pass never leaves zeros when at most 10 shares split 100 -/

theorem steal_fold_pos :
    ∀ (zs : List ℕ) (a : List ℤ), a ≠ [] → a.length ≤ 10 → a.sum = 100 →
    (∀ j, 0 ≤ a.getD j 0) → zs.Nodup → (∀ z ∈ zs, z < a.length ∧ a.getD z 0 = 0) →
    (∀ j < a.length, j ∉ zs → 0 < a.getD j 0) →
    ∀ j < a.length, 0 < (zs.foldl stealStep a).getD j 0
  | [], a, _, _, _, _, _, _, hposj => by
      intro j hj
      simpa using hposj j hj (by simp)
  | z :: zs, a, hne, hlen, hsum, hnn, hnd, hzs, hposj => by
      obtain ⟨hzlt, hz0⟩ := hzs z (List.mem_cons_self z zs)
      have hdlt : donorIdx a < a.length := donorIdx_lt hne
      have hd10 : 10 ≤ a.getD (donorIdx a) 0 := ten_le_donor hlen hsum
      have hdz : donorIdx a ≠ z := fun he => by rw [he, hz0] at hd10; omega
      have hstep : stealStep a z =
          (a.set (donorIdx a) (a.getD (donorIdx a) 0 - 1)).set z
            ((a.set (donorIdx a) (a.getD (donorIdx a) 0 - 1)).getD z 0 + 1) := by
        unfold stealStep
        dsimp only
        rw [if_pos (by omega)]
      have ha'z : (a.set (donorIdx a) (a.getD (donorIdx a) 0 - 1)).getD z 0 = 0 := by
        rw [getD_set_ne a _ _ _ hdz, hz0]
      have hstep' : stealStep a z =
          (a.set (donorIdx a) (a.getD (donorIdx a) 0 - 1)).set z 1 := by
        rw [hstep, ha'z]
        norm_num
      have hlen'' : (stealStep a z).length = a.length := stealStep_length a z
      have hzlt' : z < (a.set (donorIdx a) (a.getD (donorIdx a) 0 - 1)).length := by
        simpa using hzlt
      have hgz : (stealStep a z).getD z 0 = 1 := by
        rw [hstep', getD_set_self _ z _ hzlt']
      have hgd : (stealStep a z).getD (donorIdx a) 0 = a.getD (donorIdx a) 0 - 1 := by
        rw [hstep', getD_set_ne _ _ _ _ (fun he => hdz he.symm),
          getD_set_self a _ _ hdlt]
      have hother : ∀ j, j ≠ z → j ≠ donorIdx a →
          (stealStep a z).getD j 0 = a.getD j 0 := by
        intro j hjz hjd
        rw [hstep', getD_set_ne _ _ _ _ (fun he => hjz he.symm),
          getD_set_ne _ _ _ _ (fun he => hjd he.symm)]
      have hsum'' : (stealStep a z).sum = 100 := by
        rw [stealStep_sum a z hne hzlt, hsum]
      have hnn'' : ∀ j, 0 ≤ (stealStep a z).getD j 0 := stealStep_nonneg a z hnn
      have hnd' := List.nodup_cons.1 hnd
      have hne'' : stealStep a z ≠ [] := by
        intro he
        rw [he] at hlen''
        exact hne (List.length_eq_zero.mp hlen''.symm)
      have hzs' : ∀ z' ∈ zs, z' < (stealStep a z).length ∧ (stealStep a z).getD z' 0 = 0 := by
        intro z' hz'
        obtain ⟨hlt', h0'⟩ := hzs z' (List.mem_cons_of_mem z hz')
        have hz'z : z' ≠ z := fun he => hnd'.1 (he ▸ hz')
        have hz'd : z' ≠ donorIdx a := fun he => by rw [← he, h0'] at hd10; omega
        exact ⟨hlen'' ▸ hlt', by rw [hother z' hz'z hz'd]; exact h0'⟩
      have hposj' : ∀ j < (stealStep a z).length, j ∉ zs → 0 < (stealStep a z).getD j 0 := by
        intro j hj hjzs
        by_cases hjz : j = z
        · rw [hjz, hgz]; omega
        · by_cases hjd : j = donorIdx a
          · rw [hjd, hgd]; omega
          · rw [hother j hjz hjd]
            refine hposj j (hlen'' ▸ hj) ?_
            intro hmem
            rcases List.mem_cons.1 hmem with he | hm
            · exact hjz he
            · exact hjzs hm
      intro j hj
      rw [List.foldl_cons]
      exact steal_fold_pos zs (stealStep a z) hne'' (hlen'' ▸ hlen) hsum'' hnn''
        hnd'.2 hzs' hposj' j (hlen'' ▸ hj)

theorem lrAlloc_pos {sc : List ℚ} (hne : sc ≠ []) (h10 : sc.length ≤ 10)
    (hpos : ∀ s ∈ sc, 0 < s) : ∀ j < sc.length, 0 < (lrAlloc sc).getD j 0 := by
  obtain ⟨hl, hs, hn⟩ := lrAlloc1_spec hne hpos
  have ha1ne : lrAlloc1 sc ≠ [] := by
    intro he
    rw [he] at hl
    exact hne (List.length_eq_zero.mp hl.symm)
  have hznd : ((List.range (lrAlloc1 sc).length).filter
      (fun i => (lrAlloc1 sc).getD i 0 = 0)).Nodup :=
    (List.nodup_range _).filter _
  have hzprop : ∀ z ∈ (List.range (lrAlloc1 sc).length).filter
      (fun i => (lrAlloc1 sc).getD i 0 = 0),
      z < (lrAlloc1 sc).length ∧ (lrAlloc1 sc).getD z 0 = 0 := by
    intro z hz
    rw [List.mem_filter] at hz
    exact ⟨List.mem_range.1 hz.1, by simpa using hz.2⟩
  have hposj : ∀ j < (lrAlloc1 sc).length,
      j ∉ (List.range (lrAlloc1 sc).length).filter
        (fun i => (lrAlloc1 sc).getD i 0 = 0) → 0 < (lrAlloc1 sc).getD j 0 := by
    intro j hj hnmem
    rcases lt_or_eq_of_le (hn j) with h | h
    · exact h
    · exfalso
      apply hnmem
      rw [List.mem_filter]
      exact ⟨List.mem_range.mpr hj, by simpa using h.symm⟩
  intro j hj
  unfold lrAlloc
  exact steal_fold_pos _ (lrAlloc1 sc) ha1ne (hl ▸ h10) hs hn hznd hzprop hposj j (hl ▸ hj)

/-! ## Termination of the negative-residual `while` loop -/

theorem scanPos_finds (a : List ℤ) (order : List ℕ) :
    ∀ (k start : ℕ),
      (∃ d < k, 0 < a.getD (order.getD ((start + d) % order.length) 0) 0) →
      ∃ p, scanPos a order start k = some p ∧
        0 < a.getD (order.getD (p % order.length) 0) 0
  | 0, start, h => by
      obtain ⟨d, hd, -⟩ := h
      omega
  | k + 1, start, h => by
      by_cases hc : 0 < a.getD (order.getD (start % order.length) 0) 0
      · exact ⟨start, by rw [scanPos, if_pos hc], hc⟩
      · obtain ⟨d, hd, hpos⟩ := h
        have hd0 : d ≠ 0 := by
          intro he
          rw [he, Nat.add_zero] at hpos
          exact hc hpos
        have h' : ∃ d' < k, 0 < a.getD (order.getD ((start + 1 + d') % order.length) 0) 0 := by
          refine ⟨d - 1, by omega, ?_⟩
          have : start + 1 + (d - 1) = start + d := by omega
          rw [this]
          exact hpos
        obtain ⟨p, hp, hpp⟩ := scanPos_finds a order k (start + 1) h'
        exact ⟨p, by rw [scanPos, if_neg hc]; exact hp, hpp⟩

theorem exists_cycle_hit (order : List ℕ) (hL : order ≠ []) (i : ℕ) (hi : i < order.length)
    (start : ℕ) : ∃ d < order.length, (start + d) % order.length = i := by
  have hL0 : 0 < order.length := List.length_pos.mpr hL
  refine ⟨(i + order.length - start % order.length) % order.length, Nat.mod_lt _ hL0, ?_⟩
  have hrL : start % order.length < order.length := Nat.mod_lt start hL0
  calc (start + (i + order.length - start % order.length) % order.length) % order.length
      = (start + (i + order.length - start % order.length)) % order.length :=
        Nat.add_mod_mod _ _ _
    _ = (start % order.length + (i + order.length - start % order.length)) % order.length :=
        (Nat.mod_add_mod _ _ _).symm
    _ = (i + order.length) % order.length := by congr 1; omega
    _ = i % order.length := Nat.add_mod_right i _
    _ = i := Nat.mod_eq_of_lt hi

theorem detDecLoop_spec :
    ∀ (m : ℕ) (a : List ℤ) (order : List ℕ) (idx : ℕ),
      (∀ j, j ∈ order ↔ j < a.length) →
      (∀ j, 0 ≤ a.getD j 0) →
      a.sum = 100 + m →
      (detDecLoop m a order idx).sum = 100 ∧
        ∀ x ∈ detDecLoop m a order idx, 0 ≤ x
  | 0, a, order, idx, _, hnn, hsum => by
      rw [detDecLoop]
      refine ⟨by simpa using hsum, ?_⟩
      intro x hx
      obtain ⟨j, hj, rfl⟩ := List.mem_iff_getElem.1 hx
      rw [← List.getD_eq_getElem a 0 hj]
      exact hnn j
  | m + 1, a, order, idx, hord, hnn, hsum => by
      have hsum' : a.sum = 100 + (m + 1) := hsum
      have hspos : 0 < a.sum := by omega
      obtain ⟨j, hj, hjpos⟩ := exists_pos_entry hspos
      have hjo : j ∈ order := (hord j).mpr hj
      obtain ⟨i, hi, hio⟩ := List.mem_iff_getElem.1 hjo
      have horder_ne : order ≠ [] := by
        intro he
        rw [he] at hjo
        exact List.not_mem_nil j hjo
      obtain ⟨d, hd, hdi⟩ := exists_cycle_hit order horder_ne i hi idx
      have hhit : 0 < a.getD (order.getD ((idx + d) % order.length) 0) 0 := by
        rw [hdi, List.getD_eq_getElem order 0 hi, hio]
        exact hjpos
      obtain ⟨p, hp, hpp⟩ := scanPos_finds a order order.length idx ⟨d, hd, hhit⟩
      rw [detDecLoop, hp]
      set i₀ := order.getD (p % order.length) 0 with hi₀
      have hi₀lt : i₀ < a.length := by
        have hplt : p % order.length < order.length := Nat.mod_lt p (List.length_pos.mpr horder_ne)
        exact (hord i₀).mp (getD_mem_of_lt order 0 hplt)
      have hord' : ∀ j, j ∈ order ↔ j < (a.set i₀ (a.getD i₀ 0 - 1)).length := by
        intro j'
        simpa using hord j'
      have hnn' : ∀ j, 0 ≤ (a.set i₀ (a.getD i₀ 0 - 1)).getD j 0 := by
        intro j'
        by_cases hji : j' = i₀
        · rw [hji, getD_set_self a i₀ _ hi₀lt]
          omega
        · rw [getD_set_ne a i₀ j' _ (fun he => hji he.symm)]
          exact hnn j'
      have hsum'' : (a.set i₀ (a.getD i₀ 0 - 1)).sum = 100 + m := by
        rw [sum_set_int a i₀ _ hi₀lt]
        omega
      exact detDecLoop_spec m (a.set i₀ (a.getD i₀ 0 - 1)) order (p + 1) hord' hnn' hsum''

/-! ## The rounding allocator sums to exactly 100 -/

theorem detRaw_pos {sc : List ℚ} (hne : sc ≠ []) (hpos : ∀ s ∈ sc, 0 < s) :
    ∀ x ∈ detRaw sc, 0 < x := by
  have hT : 0 < sc.sum := List.sum_pos sc hpos hne
  intro x hx
  obtain ⟨s, hs, rfl⟩ := List.mem_map.1 hx
  have hs' : 0 < s := hpos s (List.mem_of_mem_take hs)
  rw [if_neg (ne_of_gt hT)]
  positivity

theorem detAllocs0_nonneg {sc : List ℚ} (hne : sc ≠ []) (hpos : ∀ s ∈ sc, 0 < s) :
    ∀ x ∈ detAllocs0 sc, 0 ≤ x := by
  intro x hx
  obtain ⟨q, hq, rfl⟩ := List.mem_map.1 hx
  exact rne_nonneg (le_of_lt (detRaw_pos hne hpos q hq))

theorem detAllocs0_length_pos {sc : List ℚ} (hne : sc ≠ []) :
    0 < (detAllocs0 sc).length := by
  have : 0 < sc.length := List.length_pos.mpr hne
  simp only [detAllocs0, detRaw, List.length_map, List.length_take]
  omega

theorem detFracs_length_eq (sc : List ℚ) : (detFracs sc).length = (detAllocs0 sc).length := by
  simp [detFracs, detAllocs0]

theorem detOrderDesc_mem_iff {sc : List ℚ} :
    ∀ j, j ∈ detOrderDesc sc ↔ j < (detAllocs0 sc).length := by
  intro j
  rw [detOrderDesc, List.mem_mergeSort, List.mem_range, detFracs_length_eq]

theorem detOrderAsc_mem_iff {sc : List ℚ} :
    ∀ j, j ∈ detOrderAsc sc ↔ j < (detAllocs0 sc).length := by
  intro j
  rw [detOrderAsc, List.mem_mergeSort, List.mem_range, detFracs_length_eq]

theorem detOrderDesc_ne {sc : List ℚ} (hne : sc ≠ []) : detOrderDesc sc ≠ [] := by
  intro he
  have h0 : (0 : ℕ) ∈ detOrderDesc sc := (detOrderDesc_mem_iff 0).mpr (detAllocs0_length_pos hne)
  rw [he] at h0
  exact List.not_mem_nil 0 h0

theorem detOrderAsc_ne {sc : List ℚ} (hne : sc ≠ []) : detOrderAsc sc ≠ [] := by
  intro he
  have h0 : (0 : ℕ) ∈ detOrderAsc sc := (detOrderAsc_mem_iff 0).mpr (detAllocs0_length_pos hne)
  rw [he] at h0
  exact List.not_mem_nil 0 h0

theorem detAlloc_spec {sc : List ℚ} (hne : sc ≠ []) (hpos : ∀ s ∈ sc, 0 < s) :
    (detAlloc sc).sum = 100 ∧ ∀ x ∈ detAlloc sc, 0 ≤ x := by
  have hnn := detAllocs0_nonneg hne hpos
  have hres : detResidual sc = 100 - (detAllocs0 sc).sum := rfl
  unfold detAlloc
  rcases lt_trichotomy (detResidual sc) 0 with hlt | heq | hgt
  · rw [if_neg (by omega), if_neg (by omega), if_neg (detOrderAsc_ne hne)]
    have hm : ((-detResidual sc).toNat : ℤ) = -detResidual sc := Int.toNat_of_nonneg (by omega)
    apply detDecLoop_spec ((-detResidual sc).toNat) (detAllocs0 sc) (detOrderAsc sc) 0
      detOrderAsc_mem_iff (getD_nonneg_of_forall_mem hnn)
    omega
  · rw [if_pos heq]
    exact ⟨by omega, hnn⟩
  · rw [if_neg (by omega), if_pos hgt, if_neg (detOrderDesc_ne hne)]
    have hidx : ∀ k, (detOrderDesc sc).getD (k % (detOrderDesc sc).length) 0
        < (detAllocs0 sc).length := by
      intro k
      have hL : 0 < (detOrderDesc sc).length :=
        List.length_pos.mpr (detOrderDesc_ne hne)
      exact (detOrderDesc_mem_iff _).mp
        (getD_mem_of_lt (detOrderDesc sc) 0 (Nat.mod_lt k hL))
    obtain ⟨h1, h2, h3⟩ := add_fold (detAllocs0 sc).length
      (fun k => (detOrderDesc sc).getD (k % (detOrderDesc sc).length) 0) hidx
      (List.range (detResidual sc).toNat) (detAllocs0 sc) rfl
    have hsum2 : ((List.range (detResidual sc).toNat).foldl
        (fun a k =>
          let i := (detOrderDesc sc).getD (k % (detOrderDesc sc).length) 0
          a.set i (a.getD i 0 + 1)) (detAllocs0 sc)).sum
        = (detAllocs0 sc).sum + (List.range (detResidual sc).toNat).length := h2
    have hmono : ∀ j, (detAllocs0 sc).getD j 0 ≤ ((List.range (detResidual sc).toNat).foldl
        (fun a k =>
          let i := (detOrderDesc sc).getD (k % (detOrderDesc sc).length) 0
          a.set i (a.getD i 0 + 1)) (detAllocs0 sc)).getD j 0 := h3
    have hlen2 : ((List.range (detResidual sc).toNat).foldl
        (fun a k =>
          let i := (detOrderDesc sc).getD (k % (detOrderDesc sc).length) 0
          a.set i (a.getD i 0 + 1)) (detAllocs0 sc)).length = (detAllocs0 sc).length := h1
    constructor
    · rw [hsum2]
      simp only [List.length_range]
      have : ((detResidual sc).toNat : ℤ) = detResidual sc := Int.toNat_of_nonneg (by omega)
      omega
    · intro x hx
      obtain ⟨j, hj, rfl⟩ := List.mem_iff_getElem.1 hx
      rw [← List.getD_eq_getElem _ 0 hj]
      exact le_trans (getD_nonneg_of_forall_mem hnn j) (hmono j)

/-! ## `allocate` level lemmas -/

theorem forall_mem_of_forall_getD {l : List ℤ} (h : ∀ j, 0 ≤ l.getD j 0) :
    ∀ x ∈ l, 0 ≤ x := by
  intro x hx
  obtain ⟨j, hj, rfl⟩ := List.mem_iff_getElem.1 hx
  rw [← List.getD_eq_getElem l 0 hj]
  exact h j

theorem sum_filter_pos_ge (l : List ScoreResult) :
    (l.map ScoreResult.score).sum ≤
      ((l.filter (fun s => decide (0 < s.score))).map ScoreResult.score).sum := by
  induction l with
  | nil => simp
  | cons a l ih =>
      by_cases h : 0 < a.score
      · simp only [List.filter_cons, decide_eq_true_eq, h, if_true, List.map_cons,
          List.sum_cons]
        linarith
      · simp only [List.filter_cons, decide_eq_true_eq, h, if_false, List.map_cons,
          List.sum_cons]
        have : a.score ≤ 0 := le_of_not_lt h
        linarith

theorem allocate_else {scores : List ScoreResult}
    (h : (((scores.filter (fun s => decide (0 < s.score))).map ScoreResult.score)).sum ≠ 0) :
    allocate scores =
      ((lrAlloc ((scores.filter (fun s => decide (0 < s.score))).map ScoreResult.score)).zip
        (scores.filter (fun s => decide (0 < s.score)))).map
        (fun p => { ticker := p.2.ticker, score := p.2.score,
                    upside_pct := p.2.upside_pct, allocation_pct := (p.1 : ℚ),
                    breakdown := p.2.breakdown, reason := p.2.reason,
                    beta := p.2.beta, sector := p.2.sector,
                    forward_pe := p.2.forward_pe }) := by
  unfold allocate
  dsimp only
  rw [if_neg h]

/-- C1.  For every candidate list with positive total score, the
largest-remainder allocator `scoring.allocate` returns integer, non-negative
allocation percentages summing to exactly 100; and the rounding-based
allocator of `deterministic_portfolio_rank`, fed the (non-empty,
positive-score) gated candidate scores, likewise returns non-negative
integers summing to exactly 100. -/
theorem claim_C1_allocation_sums_to_100 :
    (∀ scores : List ScoreResult, 0 < (scores.map ScoreResult.score).sum →
      ((allocate scores).map ScoreResult.allocation_pct).sum = 100 ∧
      ∀ r ∈ allocate scores, ∃ k : ℤ, r.allocation_pct = (k : ℚ) ∧ 0 ≤ k) ∧
    (∀ sc : List ℚ, sc ≠ [] → (∀ s ∈ sc, 0 < s) →
      (detAlloc sc).sum = 100 ∧ ∀ x ∈ detAlloc sc, 0 ≤ x) := by
  constructor
  · intro scores hsum
    have hge := sum_filter_pos_ge scores
    have hTpos : 0 < (((scores.filter (fun s => decide (0 < s.score))).map
        ScoreResult.score)).sum := lt_of_lt_of_le hsum hge
    have hTne := ne_of_gt hTpos
    have hscpos : ∀ x ∈ (scores.filter (fun s => decide (0 < s.score))).map
        ScoreResult.score, 0 < x := by
      intro x hx
      obtain ⟨s, hs, rfl⟩ := List.mem_map.1 hx
      exact of_decide_eq_true (List.mem_filter.1 hs).2
    have hscne : (scores.filter (fun s => decide (0 < s.score))).map
        ScoreResult.score ≠ [] := by
      intro he
      rw [he] at hTpos
      simp at hTpos
    obtain ⟨hl, hs, hn⟩ := lrAlloc_spec hscne hscpos
    constructor
    · rw [allocate_else hTne, List.map_map]
      have hzip : ((lrAlloc ((scores.filter (fun s => decide (0 < s.score))).map
            ScoreResult.score)).zip (scores.filter (fun s => decide (0 < s.score)))).map
            (ScoreResult.allocation_pct ∘
              (fun p : ℤ × ScoreResult =>
                ({ ticker := p.2.ticker, score := p.2.score,
                   upside_pct := p.2.upside_pct, allocation_pct := (p.1 : ℚ),
                   breakdown := p.2.breakdown, reason := p.2.reason,
                   beta := p.2.beta, sector := p.2.sector,
                   forward_pe := p.2.forward_pe } : ScoreResult)))
          = (lrAlloc ((scores.filter (fun s => decide (0 < s.score))).map
              ScoreResult.score)).map (fun k : ℤ => (k : ℚ)) :=
        map_fst_zip_fun (fun k : ℤ => (k : ℚ)) _ _ (by rw [hl, List.length_map])
      rw [hzip, sum_map_intCast, hs]
      norm_num
    · intro r hr
      rw [allocate_else hTne] at hr
      obtain ⟨p, hp, rfl⟩ := List.mem_map.1 hr
      obtain ⟨k, s⟩ := p
      refine ⟨k, rfl, ?_⟩
      have hk : k ∈ lrAlloc ((scores.filter (fun s => decide (0 < s.score))).map
          ScoreResult.score) := (List.of_mem_zip hp).1
      exact forall_mem_of_forall_getD hn k hk
  · intro sc hne hpos
    exact detAlloc_spec hne hpos

/-- C1 witness: a singleton candidate with score 1 is allocated 100% by
`allocate`; a singleton gated score 40 is allocated 100 by `detAlloc`. -/
theorem claim_C1_allocation_sums_to_100_witness :
    ((allocate [{ ticker := "A", score := 1, upside_pct := 0, allocation_pct := 0,
                  breakdown := { upside_pct := 0, upside_points := 0, earnings_points := 0,
                                 analyst_points := 0, technical_points := 0 } }]).map
      ScoreResult.allocation_pct).sum = 100 ∧ (detAlloc [40]).sum = 100 :=
  ⟨(claim_C1_allocation_sums_to_100.1 _ (by norm_num)).1,
   (claim_C1_allocation_sums_to_100.2 [40] (by norm_num)
      (by intro s hs; rw [List.mem_singleton] at hs; rw [hs]; norm_num)).1⟩

/-- C2.  With at most 10 candidates, all with positive score, no candidate
returned by `allocate` is left with a zero allocation: the safety pass can
always steal one point from the largest allocation (which holds at least
⌈100/10⌉ = 10). -/
theorem claim_C2_no_zero_allocation (scores : List ScoreResult) (hne : scores ≠ [])
    (hlen : scores.length ≤ 10) (hpos : ∀ s ∈ scores, 0 < s.score) :
    ∀ r ∈ allocate scores, 0 < r.allocation_pct := by
  have hfil : scores.filter (fun s => decide (0 < s.score)) = scores :=
    List.filter_eq_self.2 (fun s hs => decide_eq_true (hpos s hs))
  have hscpos : ∀ x ∈ scores.map ScoreResult.score, 0 < x := by
    intro x hx
    obtain ⟨s, hs, rfl⟩ := List.mem_map.1 hx
    exact hpos s hs
  have hscne : scores.map ScoreResult.score ≠ [] := by
    intro he
    exact hne (List.map_eq_nil_iff.mp he)
  have hTpos : 0 < (scores.map ScoreResult.score).sum :=
    List.sum_pos _ hscpos hscne
  have hTne : (((scores.filter (fun s => decide (0 < s.score))).map
      ScoreResult.score)).sum ≠ 0 := by
    rw [hfil]
    exact ne_of_gt hTpos
  have hlen' : (scores.map ScoreResult.score).length ≤ 10 := by
    rw [List.length_map]
    exact hlen
  have hposall := lrAlloc_pos hscne hlen' hscpos
  obtain ⟨hl, -, -⟩ := lrAlloc_spec hscne hscpos
  intro r hr
  rw [allocate_else hTne, hfil] at hr
  obtain ⟨p, hp, rfl⟩ := List.mem_map.1 hr
  obtain ⟨k, s⟩ := p
  have hk : k ∈ lrAlloc (scores.map ScoreResult.score) := (List.of_mem_zip hp).1
  obtain ⟨j, hj, hjk⟩ := List.mem_iff_getElem.1 hk
  have hkpos : 0 < k := by
    rw [← hjk, ← List.getD_eq_getElem _ 0 hj]
    apply hposall
    rw [← hl]
    exact hj
  simpa using hkpos

/-- C9.  When no candidate has positive score, the positive filter is empty,
the total is 0, and `allocate` returns its input unchanged. -/
theorem claim_C9_zero_total_skips (scores : List ScoreResult)
    (h : ∀ s ∈ scores, s.score ≤ 0) : allocate scores = scores := by
  have hfil : scores.filter (fun s => decide (0 < s.score)) = [] := by
    rw [List.filter_eq_nil_iff]
    intro s hs
    simpa using h s hs
  unfold allocate
  dsimp only
  rw [hfil]
  simp

/-- C9 witness: a single zero-score candidate is returned unchanged. -/
theorem claim_C9_zero_total_skips_witness :
    allocate [{ ticker := "A", score := 0, upside_pct := 0, allocation_pct := 0,
                breakdown := { upside_pct := 0, upside_points := 0, earnings_points := 0,
                               analyst_points := 0, technical_points := 0 } }]
      = [{ ticker := "A", score := 0, upside_pct := 0, allocation_pct := 0,
           breakdown := { upside_pct := 0, upside_points := 0, earnings_points := 0,
                          analyst_points := 0, technical_points := 0 } }] :=
  claim_C9_zero_total_skips _ (by
    intro s hs
    rw [List.mem_singleton] at hs
    rw [hs])

theorem alloc_single_eval :
    allocate [{ ticker := "A", score := 1, upside_pct := 0, allocation_pct := 0,
                breakdown := { upside_pct := 0, upside_points := 0, earnings_points := 0,
                               analyst_points := 0, technical_points := 0 } }]
    = [{ ticker := "A", score := 1, upside_pct := 0, allocation_pct := 100,
         breakdown := { upside_pct := 0, upside_points := 0, earnings_points := 0,
                        analyst_points := 0, technical_points := 0 } }] := by
  norm_num [allocate, lrAlloc, lrAlloc1, lrFloors, lrRaw, lrRemainder, lrFracs, pyTrunc,
    bumpAt, stealStep, donorIdx, List.mergeSort, List.range_succ]

/-- C2 witness: the single positive candidate ends with a 100% (non-zero)
allocation. -/
theorem claim_C2_no_zero_allocation_witness :
    0 < ({ ticker := "A", score := 1, upside_pct := 0, allocation_pct := 100,
           breakdown := { upside_pct := 0, upside_points := 0, earnings_points := 0,
                          analyst_points := 0, technical_points := 0 } } :
          ScoreResult).allocation_pct :=
  claim_C2_no_zero_allocation
    [{ ticker := "A", score := 1, upside_pct := 0, allocation_pct := 0,
       breakdown := { upside_pct := 0, upside_points := 0, earnings_points := 0,
                      analyst_points := 0, technical_points := 0 } }]
    (by simp) (by simp)
    (by
      intro s hs
      rw [List.mem_singleton] at hs
      rw [hs]
      norm_num)
    _
    (by rw [alloc_single_eval]; exact List.mem_singleton.mpr rfl)

/-! ## C4: numeric coercion at ingestion -/

/-- C4 counterexample: `scoring._safe_num` does **not** normalize
`+Infinity` to absent — its only guard is the NaN self-equality check, which
Infinity passes — so coercion through `_safe_num` can yield a non-finite
value, contradicting the claim for `_safe_num`. -/
theorem claim_C4_coercion_counterexample :
    safe_num (PyVal.float PyFloat.inf) = some PyFloat.inf ∧
      PyFloat.isFinite PyFloat.inf = false ∧
      safe_num (PyVal.float PyFloat.inf) ≠ none :=
  ⟨rfl, rfl, by decide⟩

/-- C4 (amended).  `rank._to_float` coerces non-numeric, NaN, `+Infinity`
and `-Infinity` to absent and finite values to themselves; `scoring._safe_num`
coerces non-numeric values and NaN to absent but passes `±Infinity` through
unchanged, so only `_to_float` guarantees a finite-or-absent result. -/
theorem claim_C4_coercion_amended :
    (∀ q : ℚ, to_float (PyVal.float (PyFloat.fin q)) = some q) ∧
    to_float (PyVal.float PyFloat.nan) = none ∧
    to_float (PyVal.float PyFloat.inf) = none ∧
    to_float (PyVal.float PyFloat.neginf) = none ∧
    to_float PyVal.nonNumeric = none ∧
    (∀ q : ℚ, safe_num (PyVal.float (PyFloat.fin q)) = some (PyFloat.fin q)) ∧
    safe_num (PyVal.float PyFloat.nan) = none ∧
    safe_num PyVal.nonNumeric = none ∧
    safe_num (PyVal.float PyFloat.inf) = some PyFloat.inf ∧
    safe_num (PyVal.float PyFloat.neginf) = some PyFloat.neginf :=
  ⟨fun _ => rfl, rfl, rfl, rfl, rfl, fun _ => rfl, rfl, rfl, rfl, rfl⟩

/-! ## C3: neutral defaults for missing factor inputs -/

/-- C3 counterexample: on a snapshot with *all* inputs absent, the volume
factor is 0.0, not the neutral 0.5 — the 0.8 `volume_trend` default fails
both the `> 1.0` and the strict `> 0.8` threshold. -/
theorem claim_C3_neutral_defaults_counterexample :
    (factor_scores {}).volume = 0 ∧ (factor_scores {}).volume ≠ 0.5 := by
  constructor
  · norm_num [factor_scores]
  · norm_num [factor_scores]

/-- C3 (amended).  On a snapshot missing close, SMA200, RSI14, MACD,
MACD-hist, volume_trend, ATR14 and upside_pct, the momentum, rsi, macd,
volatility and upside factors all default to the neutral 0.5, but the volume
factor defaults (via its own `volume_trend or 0.8` fallback and the strict
`> 0.8` threshold) to 0.0 — so missing data does zero out the volume factor,
and only that one. -/
theorem claim_C3_neutral_defaults_amended (s : TickerSnapshot)
    (hc : s.close = none) (hr : s.rsi14 = none) (hm : s.macd = none)
    (hh : s.macd_hist = none) (hv : s.volume_trend = none) (ha : s.atr14 = none)
    (hu : s.upside_pct = none) :
    (factor_scores s).momentum = 0.5 ∧ (factor_scores s).rsi = 0.5 ∧
    (factor_scores s).macd = 0.5 ∧ (factor_scores s).volatility = 0.5 ∧
    (factor_scores s).upside = 0.5 ∧ (factor_scores s).volume = 0 := by
  have hap : s.atr_pct = none := by
    rw [TickerSnapshot.atr_pct, hc, ha]
  norm_num [factor_scores, hc, hr, hm, hh, hv, ha, hu, hap]

/-- C3 witness: the all-absent snapshot. -/
theorem claim_C3_neutral_defaults_amended_witness :
    (factor_scores {}).momentum = 0.5 ∧ (factor_scores {}).rsi = 0.5 ∧
    (factor_scores {}).macd = 0.5 ∧ (factor_scores {}).volatility = 0.5 ∧
    (factor_scores {}).upside = 0.5 ∧ (factor_scores {}).volume = 0 :=
  claim_C3_neutral_defaults_amended {} rfl rfl rfl rfl rfl rfl rfl

/-! ## C7: the swing-setup calculator -/

/-- C7.  For a snapshot with close and a non-zero ATR14, `build_swing_setup`
returns `close ∓ 0.2·ATR` as the entry band, `close − 1.5·ATR` as stop and
`close + 2.5·ATR` as target, each rounded to 2 decimals, with
reward:risk `(target − mid_entry)/(mid_entry − stop)` rounded to 2 decimals
— which always evaluates to 1.67; on the concrete close=100, ATR14=2 input
it returns entry (99.6, 100.4), stop 97.0, target 105.0 and 1.67; and when
stop equals mid_entry the ratio is `None` rather than a division error. -/
theorem claim_C7_swing_setup :
    (∀ (s : TickerSnapshot) (c a : ℚ), s.close = some c → s.atr14 = some a → a ≠ 0 →
      build_swing_setup s = some
        { entry_low := round2 (c - 0.2 * a), entry_high := round2 (c + 0.2 * a),
          stop := round2 (c - 1.5 * a), target := round2 (c + 2.5 * a),
          rr := some (round2 ((c + 2.5 * a - (c - 0.2 * a + (c + 0.2 * a)) / 2) /
            ((c - 0.2 * a + (c + 0.2 * a)) / 2 - (c - 1.5 * a)))) } ∧
      round2 ((c + 2.5 * a - (c - 0.2 * a + (c + 0.2 * a)) / 2) /
        ((c - 0.2 * a + (c + 0.2 * a)) / 2 - (c - 1.5 * a))) = 1.67) ∧
    build_swing_setup { close := some 100, atr14 := some 2 } = some
      { entry_low := 99.6, entry_high := 100.4, stop := 97, target := 105,
        rr := some 1.67 } ∧
    build_swing_setup { close := some 0, atr14 := some 0 } = some
      { entry_low := 0, entry_high := 0, stop := 0, target := 0, rr := none } := by
  refine ⟨?_, ?_, ?_⟩
  · intro s c a hc ha haz
    have hmid : (c - 0.2 * a + (c + 0.2 * a)) / 2 = c := by ring
    have hratio : (c + 2.5 * a - (c - 0.2 * a + (c + 0.2 * a)) / 2) /
        ((c - 0.2 * a + (c + 0.2 * a)) / 2 - (c - 1.5 * a)) = 5 / 3 := by
      rw [hmid]
      have hnum : c + 2.5 * a - c = a * 2.5 := by ring
      have hden : c - (c - 1.5 * a) = a * 1.5 := by ring
      rw [hnum, hden, mul_div_mul_left _ _ haz]
      norm_num
    have hval : round2 (5 / 3 : ℚ) = 1.67 := by
      have hfloor : ⌊(5 : ℚ) / 3 * 100⌋ = 166 := by
        rw [show (5 : ℚ) / 3 * 100 = 500 / 3 by ring]
        norm_num [Int.floor_eq_iff]
      norm_num [round2, rne, hfloor]
    constructor
    · rw [build_swing_setup, hc, ha]
      dsimp only
      rw [if_neg haz]
      have hcond : ¬(c - 1.5 * a = (c - 0.2 * a + (c + 0.2 * a)) / 2) := by
        rw [hmid]
        intro h
        apply haz
        linarith
      rw [if_neg hcond]
    · rw [hratio, hval]
  · norm_num [build_swing_setup, round2, rne, Int.floor_eq_iff]
  · norm_num [build_swing_setup, round2, rne]

/-- C7 witness: the general formula instantiated at close=100, ATR14=2. -/
theorem claim_C7_swing_setup_witness :
    build_swing_setup { close := some 100, atr14 := some 2 } = some
      { entry_low := round2 (100 - 0.2 * 2), entry_high := round2 (100 + 0.2 * 2),
        stop := round2 (100 - 1.5 * 2), target := round2 (100 + 2.5 * 2),
        rr := some (round2 ((100 + 2.5 * 2 - (100 - 0.2 * 2 + (100 + 0.2 * 2)) / 2) /
          ((100 - 0.2 * 2 + (100 + 0.2 * 2)) / 2 - (100 - 1.5 * 2)))) } :=
  (claim_C7_swing_setup.1 { close := some 100, atr14 := some 2 } 100 2 rfl rfl
    (by norm_num)).1

/-! ## C10: a computed 0.0 upside is discarded by the truthiness chain -/

/-- C10.  In `score_ticker`, when the analyst target equals the (non-zero)
current price, `compute_upside` returns exactly `0.0`; because the fallback
chain `compute_upside(...) or fundamentals.get("target_upside_pct") or 0.0`
treats `0.0` as falsy, the resulting `upside_pct` is taken from the
fundamentals' `target_upside_pct` field instead of the computed 0%. -/
theorem claim_C10_zero_upside_discarded (p : TickerPayload) (c v : ℚ)
    (hne : strUpper p.ticker ≠ "") (hcp : p.fundamentals.current_price = some c)
    (hc0 : c ≠ 0) (htg : p.fundamentals.target_mean_price = some c)
    (htu : p.fundamentals.target_upside_pct = some v) :
    compute_upside p.fundamentals = some 0 ∧
      Option.map ScoreResult.upside_pct (score_ticker p) = some v := by
  have hcu : compute_upside p.fundamentals = some 0 := by
    unfold compute_upside
    dsimp only
    rw [hcp, htg]
    simp only [pyOr, if_neg hc0]
    rw [if_pos hc0]
    norm_num
  refine ⟨hcu, ?_⟩
  unfold score_ticker
  rw [if_neg hne]
  dsimp only
  rw [hcu, htu]
  simp only [Option.map_some', pyOrD, pyOr, if_pos rfl]
  by_cases hv : v = 0
  · simp [hv]
  · simp [hv]

/-- C10 witness: current = target = 100, target_upside_pct = 5 gives
upside_pct 5 even though the computed upside is exactly 0. -/
theorem claim_C10_zero_upside_discarded_witness :
    compute_upside ({ current_price := some 100, target_mean_price := some 100,
                      target_upside_pct := some 5 } : Fundamentals) = some 0 ∧
      Option.map ScoreResult.upside_pct (score_ticker
        { ticker := "nvda",
          fundamentals := { current_price := some 100, target_mean_price := some 100,
                            target_upside_pct := some 5 } }) = some 5 :=
  claim_C10_zero_upside_discarded
    { ticker := "nvda",
      fundamentals := { current_price := some 100, target_mean_price := some 100,
                        target_upside_pct := some 5 } }
    100 5 (by decide) rfl (by norm_num) rfl rfl

/-! ## C6: both 0–100 point schemes are capped at 40+25+15+20 = 100 -/

theorem upside_points_le (u : ℚ) : min (max u 0) 120 * (40 / 120) ≤ 40 := by
  have h : min (max u 0) 120 ≤ 120 := min_le_right _ _
  have h0 : (0 : ℚ) ≤ 40 / 120 := by norm_num
  calc min (max u 0) 120 * (40 / 120) ≤ 120 * (40 / 120) :=
        mul_le_mul_of_nonneg_right h h0
    _ = 40 := by norm_num

theorem compute_confluence_le (f : Fundamentals) :
    (compute_confluence f).1 ≤ 7 ∧ (compute_confluence f).2.1 ≤ 7 ∧
      (compute_confluence f).2.2 ≤ 6 := by
  unfold compute_confluence
  rcases f.sma50 with _ | s50 <;> rcases f.current_price with _ | cp <;>
    rcases f.rsi14 with _ | r <;> rcases f.volume_trend with _ | v <;>
    dsimp only <;> first
    | (split_ifs <;> norm_num)
    | norm_num

theorem earn_points_le (it : AiItem) : earn_points it ≤ 25 := by
  unfold earn_points
  dsimp only
  exact min_le_left _ _

/-- C6.  In both point schemes — `scoring.score_ticker` and the `_score`
helper of `deterministic_portfolio_rank` — the four components are
individually capped (upside ≤ 40, earnings ≤ 25, analyst ≤ 15,
technical ≤ 20), so the total score is at most 100. -/
theorem claim_C6_total_score_capped :
    (∀ (p : TickerPayload) (r : ScoreResult), score_ticker p = some r →
      r.breakdown.upside_points ≤ 40 ∧ r.breakdown.earnings_points ≤ 25 ∧
      r.breakdown.analyst_points ≤ 15 ∧ r.breakdown.technical_points ≤ 20 ∧
      r.score ≤ 100) ∧
    (∀ it : AiItem, (aiScore it).upside_pts ≤ 40 ∧ (aiScore it).earn_pts ≤ 25 ∧
      (aiScore it).analyst_pts ≤ 15 ∧ (aiScore it).tech_pts ≤ 20 ∧
      (aiScore it).total ≤ 100) := by
  constructor
  · intro p r h
    unfold score_ticker at h
    by_cases hne : strUpper p.ticker = ""
    · rw [if_pos hne] at h
      simp at h
    · rw [if_neg hne] at h
      dsimp only at h
      obtain rfl := (Option.some.inj h).symm
      dsimp only
      have hup : min (max (pyOrD (pyOr (compute_upside p.fundamentals)
          p.fundamentals.target_upside_pct) 0) 0) 120 * (40 / 120) ≤ 40 :=
        upside_points_le _
      have hearn : min (parse_earnings_growth p.modules * 0.5) 25 ≤ 25 :=
        min_le_right _ _
      have hana : (match p.modules.recommendationTrend_trend.getD [] with
          | [] => (0 : ℚ)
          | first :: _ =>
            let total_analysts := first.strongBuy.getD 0 + first.buy.getD 0
              + first.hold.getD 0 + first.sell.getD 0 + first.strongSell.getD 0
            let buy_sum := first.strongBuy.getD 0 + first.buy.getD 0
            let buy_pct := if total_analysts ≠ 0 then buy_sum / total_analysts * 100 else 0
            if 90 ≤ buy_pct then 15
            else if 70 ≤ buy_pct then 10
            else if 50 ≤ buy_pct then 5
            else 0) ≤ 15 := by
        rcases p.modules.recommendationTrend_trend.getD [] with _ | ⟨first, rest⟩
        · norm_num
        · dsimp only
          split_ifs <;> norm_num
      obtain ⟨hc1, hc2, hc3⟩ := compute_confluence_le p.fundamentals
      refine ⟨hup, hearn, hana, by linarith, by linarith⟩
  · intro it
    unfold aiScore
    dsimp only
    have hup : min (max (pyOrD it.upside 0) 0) 120 * (40 / 120) ≤ 40 :=
      upside_points_le _
    have hearn := earn_points_le it
    have hana : (if 90 ≤ pyOrD it.buy_rating_pct 0 then (15 : ℚ)
        else if 70 ≤ pyOrD it.buy_rating_pct 0 then 10
        else if 50 ≤ pyOrD it.buy_rating_pct 0 then 5
        else 0) ≤ 15 := by
      split_ifs <;> norm_num
    have htech : (match it.currentPrice, it.sma50 with
        | some c, some s50 => if s50 < c then (7 : ℚ) else 0
        | _, _ => 0)
        + (match it.rsi with
           | some r => if 38 ≤ r ∧ r ≤ 62 then (7 : ℚ) else 0
           | none => 0)
        + (match it.volume_trend with
           | some v => if 1 < v then (6 : ℚ) else 0
           | none => 0) ≤ 20 := by
      rcases it.currentPrice with _ | c <;> rcases it.sma50 with _ | s50 <;>
        rcases it.rsi with _ | r <;> rcases it.volume_trend with _ | v <;>
        dsimp only <;> first
        | (split_ifs <;> norm_num)
        | norm_num
    exact ⟨hup, hearn, hana, htech, by linarith⟩

theorem score_ticker_min_eval :
    score_ticker { ticker := "a" } = some
      { ticker := "A", score := 0, upside_pct := 0, allocation_pct := 0,
        breakdown := { upside_pct := 0, upside_points := 0, earnings_points := 0,
                       analyst_points := 0, technical_points := 0 } } := by
  simp +decide only [score_ticker, strUpper]
  norm_num [compute_upside, pyOr, pyOrD, parse_earnings_growth, compute_confluence]
  decide

/-- C6 witness: the empty-data payload's breakdown obeys all four caps, and
the empty `_score` item is capped at 100. -/
theorem claim_C6_total_score_capped_witness :
    (({ ticker := "A", score := 0, upside_pct := 0, allocation_pct := 0,
        breakdown := { upside_pct := 0, upside_points := 0, earnings_points := 0,
                       analyst_points := 0, technical_points := 0 } } :
        ScoreResult).breakdown.upside_points ≤ 40 ∧
      ({ ticker := "A", score := 0, upside_pct := 0, allocation_pct := 0,
         breakdown := { upside_pct := 0, upside_points := 0, earnings_points := 0,
                        analyst_points := 0, technical_points := 0 } } :
        ScoreResult).breakdown.earnings_points ≤ 25 ∧
      ({ ticker := "A", score := 0, upside_pct := 0, allocation_pct := 0,
         breakdown := { upside_pct := 0, upside_points := 0, earnings_points := 0,
                        analyst_points := 0, technical_points := 0 } } :
        ScoreResult).breakdown.analyst_points ≤ 15 ∧
      ({ ticker := "A", score := 0, upside_pct := 0, allocation_pct := 0,
         breakdown := { upside_pct := 0, upside_points := 0, earnings_points := 0,
                        analyst_points := 0, technical_points := 0 } } :
        ScoreResult).breakdown.technical_points ≤ 20 ∧
      ({ ticker := "A", score := 0, upside_pct := 0, allocation_pct := 0,
         breakdown := { upside_pct := 0, upside_points := 0, earnings_points := 0,
                        analyst_points := 0, technical_points := 0 } } :
        ScoreResult).score ≤ 100) ∧
    (aiScore {}).total ≤ 100 :=
  ⟨claim_C6_total_score_capped.1 { ticker := "a" } _ score_ticker_min_eval,
   (claim_C6_total_score_capped.2 {}).2.2.2.2⟩

/-! ## C5: the 30-point floor -/

theorem score_ticker_alloc_zero (p : TickerPayload) (r : ScoreResult)
    (h : score_ticker p = some r) : r.allocation_pct = 0 := by
  unfold score_ticker at h
  by_cases hne : strUpper p.ticker = ""
  · rw [if_pos hne] at h
    simp at h
  · rw [if_neg hne] at h
    dsimp only at h
    obtain rfl := (Option.some.inj h).symm
    rfl

theorem score_ticker_low_eval :
    score_ticker
      { ticker := "aaa",
        fundamentals := { current_price := some 100, target_mean_price := some 110 } }
      = some { ticker := "AAA", score := 10/3, upside_pct := 10, allocation_pct := 0,
               breakdown := { upside_pct := 10, upside_points := 10/3,
                              earnings_points := 0, analyst_points := 0,
                              technical_points := 0 } } := by
  simp +decide only [score_ticker, strUpper]
  norm_num [compute_upside, pyOr, pyOrD, parse_earnings_growth, compute_confluence]
  decide

theorem saa_low_eval :
    score_and_allocate
      [{ ticker := "aaa",
         fundamentals := { current_price := some 100, target_mean_price := some 110 } }] 10
      = [{ ticker := "AAA", score := 10/3, upside_pct := 10, allocation_pct := 100,
           breakdown := { upside_pct := 10, upside_points := 10/3,
                          earnings_points := 0, analyst_points := 0,
                          technical_points := 0 } }] := by
  unfold score_and_allocate
  rw [List.filterMap_cons, score_ticker_low_eval]
  norm_num [List.mergeSort, allocate, lrAlloc, lrAlloc1, lrFloors, lrRaw, lrRemainder,
    lrFracs, pyTrunc, bumpAt, stealStep, donorIdx, List.range_succ]

/-- C5 counterexample: `score_and_allocate` has no 30-point floor — a single
candidate scoring 10/3 (< 30) appears in the allocated output with a 100%
allocation, so the claim fails for `score_and_allocate`. -/
theorem claim_C5_min_score_gate_counterexample :
    (score_and_allocate
      [{ ticker := "aaa",
         fundamentals := { current_price := some 100, target_mean_price := some 110 } }]
      10).map (fun r => (r.score, r.allocation_pct)) = [((10 : ℚ)/3, (100 : ℚ))] ∧
      (10 : ℚ)/3 < 30 ∧ (0 : ℚ) < 100 := by
  rw [saa_low_eval]
  norm_num

/-- C5 (amended).  Only `deterministic_portfolio_rank` applies the 30-point
floor: its gated candidate list keeps exactly the items with score ≥ 30.
`score_and_allocate` has no such floor — the only exclusion in its pipeline
is `allocate`'s positive-score filter, so any output row holding a positive
allocation has positive (not necessarily ≥ 30) score. -/
theorem claim_C5_min_score_gate_amended :
    (∀ (items : List AiItem) (p : AiItem × ℚ), p ∈ detScored items → 30 ≤ p.2) ∧
    (∀ (payloads : List TickerPayload) (n : ℕ) (r : ScoreResult),
      r ∈ score_and_allocate payloads n → 0 < r.allocation_pct → 0 < r.score) := by
  constructor
  · intro items p hp
    unfold detScored at hp
    dsimp only at hp
    rw [List.mem_mergeSort] at hp
    exact of_decide_eq_true (List.mem_filter.1 hp).2
  · intro payloads n r hr h0
    unfold score_and_allocate at hr
    dsimp only at hr
    by_cases hT : (((if 0 < n then
        ((payloads.filterMap score_ticker).mergeSort
          (fun a b => decide (b.score ≤ a.score))).take n
      else (payloads.filterMap score_ticker).mergeSort
          (fun a b => decide (b.score ≤ a.score))).filter
        (fun s => decide (0 < s.score))).map ScoreResult.score).sum = 0
    · rw [allocate, if_pos hT] at hr
      have hr' : r ∈ (payloads.filterMap score_ticker).mergeSort
          (fun a b => decide (b.score ≤ a.score)) := by
        by_cases hn : 0 < n
        · rw [if_pos hn] at hr
          exact List.mem_of_mem_take hr
        · rw [if_neg hn] at hr
          exact hr
      rw [List.mem_mergeSort] at hr'
      obtain ⟨q, -, hq⟩ := List.mem_filterMap.1 hr'
      rw [score_ticker_alloc_zero q r hq] at h0
      exact absurd h0 (by norm_num)
    · rw [allocate_else hT] at hr
      obtain ⟨p, hp, rfl⟩ := List.mem_map.1 hr
      obtain ⟨k, s⟩ := p
      have hs : s ∈ (if 0 < n then
          ((payloads.filterMap score_ticker).mergeSort
            (fun a b => decide (b.score ≤ a.score))).take n
        else (payloads.filterMap score_ticker).mergeSort
            (fun a b => decide (b.score ≤ a.score))).filter
          (fun s => decide (0 < s.score)) := (List.of_mem_zip hp).2
      exact of_decide_eq_true (List.mem_filter.1 hs).2

/-- C5 witness: the allocated sub-30 candidate indeed has positive score. -/
theorem claim_C5_min_score_gate_amended_witness :
    0 < ({ ticker := "AAA", score := 10/3, upside_pct := 10, allocation_pct := 100,
           breakdown := { upside_pct := 10, upside_points := 10/3,
                          earnings_points := 0, analyst_points := 0,
                          technical_points := 0 } } : ScoreResult).score :=
  claim_C5_min_score_gate_amended.2
    [{ ticker := "aaa",
       fundamentals := { current_price := some 100, target_mean_price := some 110 } }]
    10 _
    (by rw [saa_low_eval]; exact List.mem_singleton.mpr rfl)
    (by norm_num)

/-! ## C8: the three-key stable ranking sort -/

theorem keyLE_refl (x : ℚ × ℚ × WithTop ℚ) : keyLE x x :=
  Or.inr ⟨rfl, Or.inr ⟨rfl, le_refl _⟩⟩

theorem keyLE_total (x y : ℚ × ℚ × WithTop ℚ) : keyLE x y ∨ keyLE y x := by
  unfold keyLE
  rcases lt_trichotomy x.1 y.1 with h | h | h
  · exact Or.inl (Or.inl h)
  · rcases lt_trichotomy x.2.1 y.2.1 with h2 | h2 | h2
    · exact Or.inl (Or.inr ⟨h, Or.inl h2⟩)
    · rcases le_total x.2.2 y.2.2 with h3 | h3
      · exact Or.inl (Or.inr ⟨h, Or.inr ⟨h2, h3⟩⟩)
      · exact Or.inr (Or.inr ⟨h.symm, Or.inr ⟨h2.symm, h3⟩⟩)
    · exact Or.inr (Or.inr ⟨h.symm, Or.inl h2⟩)
  · exact Or.inr (Or.inl h)

theorem keyLE_trans {x y z : ℚ × ℚ × WithTop ℚ} (h1 : keyLE x y) (h2 : keyLE y z) :
    keyLE x z := by
  unfold keyLE at *
  rcases h1 with h1 | ⟨e1, h1⟩
  · rcases h2 with h2 | ⟨e2, h2⟩
    · exact Or.inl (lt_trans h1 h2)
    · exact Or.inl (e2 ▸ h1)
  · rcases h2 with h2 | ⟨e2, h2⟩
    · exact Or.inl (e1 ▸ h2)
    · refine Or.inr ⟨e1.trans e2, ?_⟩
      rcases h1 with h1 | ⟨f1, h1⟩
      · rcases h2 with h2 | ⟨f2, h2⟩
        · exact Or.inl (lt_trans h1 h2)
        · exact Or.inl (f2 ▸ h1)
      · rcases h2 with h2 | ⟨f2, h2⟩
        · exact Or.inl (f1 ▸ h2)
        · exact Or.inr ⟨f1.trans f2, le_trans h1 h2⟩

theorem keyLE_rankKey_iff (a b : ScoredRow) :
    keyLE (rankKey a) (rankKey b) ↔ rowLE a b := by
  simp [keyLE, rowLE, rankKey, neg_lt_neg_iff, neg_inj]

/-- C8.  `rank_tickers` sorts the scored rows by descending score, then
descending upside_pct, then ascending ATR% with a missing ATR% ordered last
(`⊤`): `rank_sort` is a permutation of its input, its output is pairwise
ordered by that three-part key, and the sort is stable — two rows with equal
keys that appear as the sublist `[a, b]` of the input still appear in that
order in the output. -/
theorem claim_C8_rank_sort_stable_order :
    ∀ l : List ScoredRow,
      (rank_sort l).Perm l ∧
      (rank_sort l).Pairwise rowLE ∧
      (∀ a b : ScoredRow, rankKey a = rankKey b → List.Sublist [a, b] l →
        List.Sublist [a, b] (rank_sort l)) := by
  have htrans : ∀ a b c : ScoredRow,
      (fun a b => decide (keyLE (rankKey a) (rankKey b))) a b →
      (fun a b => decide (keyLE (rankKey a) (rankKey b))) b c →
      (fun a b => decide (keyLE (rankKey a) (rankKey b))) a c := by
    intro a b c h1 h2
    exact decide_eq_true (keyLE_trans (of_decide_eq_true h1) (of_decide_eq_true h2))
  have htotal : ∀ a b : ScoredRow,
      ((fun a b => decide (keyLE (rankKey a) (rankKey b))) a b ||
        (fun a b => decide (keyLE (rankKey a) (rankKey b))) b a) := by
    intro a b
    rcases keyLE_total (rankKey a) (rankKey b) with h | h
    · simp [decide_eq_true h]
    · simp [decide_eq_true h]
  intro l
  refine ⟨List.mergeSort_perm l _, ?_, ?_⟩
  · have hp := List.sorted_mergeSort htrans htotal l
    rw [rank_sort]
    exact hp.imp (fun h => (keyLE_rankKey_iff _ _).1 (of_decide_eq_true h))
  · intro a b hk hsub
    rw [rank_sort]
    exact List.pair_sublist_mergeSort htrans htotal
      (decide_eq_true (hk ▸ keyLE_refl (rankKey a))) hsub

/-- C8 witness: two identical-key rows keep their relative order. -/
theorem claim_C8_rank_sort_stable_order_witness :
    List.Sublist
      [({ score := some 1, upside_pct := some 2, atr_pct := some 3 } : ScoredRow),
       { score := some 1, upside_pct := some 2, atr_pct := some 3 }]
      (rank_sort
        [{ score := some 1, upside_pct := some 2, atr_pct := some 3 },
         { score := some 1, upside_pct := some 2, atr_pct := some 3 }]) :=
  (claim_C8_rank_sort_stable_order
    [{ score := some 1, upside_pct := some 2, atr_pct := some 3 },
     { score := some 1, upside_pct := some 2, atr_pct := some 3 }]).2.2 _ _ rfl
    (List.Sublist.refl _)
